import Mathlib

/-!
Verification of the TasteTrend Schema Reconciliation & Validation Pipeline.

This file gives a shallow embedding of the core ETL code (`src/etl/etl.py`)
and the validation code (`src/etl_validation.py`) of the repository, and
proves or refutes the frozen claims about them.

Modelling conventions:
* A pandas cell is a `Value`: a rational number (`num`), a string (`str`),
  or the explicit missing marker (`missing`, standing for NaN / NaT / pd.NA).
  Machine floats are modelled by rationals; no claim depends on float rounding.
* A DataFrame is a `Table`: a list of column names plus one association list
  per row.  Cell lookup on an absent column yields `missing`.
* External library behaviour that the source delegates to (pandas CSV
  parsing, `pd.to_numeric` string parsing, `pd.to_datetime`, `np.log1p`) is
  modelled by small executable stand-ins, marked by comments; no claim
  verified here depends on the exact values those stand-ins produce.
-/

set_option maxRecDepth 16000

attribute [local semireducible] Rat.add Rat.mul Rat.inv Rat.sub Rat.ofScientific

namespace TasteTrend

/-- A single cell of a table: numeric, string, or the explicit missing
marker (pandas NaN / NaT / NA). -/
inductive Value where
  | num (q : ℚ)
  | str (s : String)
  | missing
deriving DecidableEq, Repr

/-- A row is an association list from column name to cell value; the first
binding for a name wins. -/
abbrev Row : Type := List (String × Value)

/-- Cell lookup; absent columns read as `missing` (pandas raises instead, but
every lookup the embedded code performs is guarded by a column-presence
check at the call site, mirroring the source). -/
def Row.get (r : Row) (c : String) : Value :=
  (List.lookup c r).getD Value.missing

/-- Set (shadow) one cell of a row. -/
def Row.set (r : Row) (c : String) (v : Value) : Row :=
  (c, v) :: r

/-- A DataFrame: column names in order, plus the rows. -/
structure Table where
  cols : List String
  rows : List Row
deriving DecidableEq, Repr

/-- Element-wise assignment `df[c] = f(row)`: pandas appends the column at
the end when it is new, and keeps the column order when it exists. -/
def Table.setCol (t : Table) (c : String) (f : Row → Value) : Table :=
  { cols := if c ∈ t.cols then t.cols else t.cols ++ [c]
    rows := t.rows.map fun r => r.set c (f r) }

/-- Element-wise transformation `df[c] = g(df[c])` of an existing column. -/
def Table.mapCol (t : Table) (c : String) (g : Value → Value) : Table :=
  { cols := t.cols
    rows := t.rows.map fun r => r.set c (g (r.get c)) }

/-- The values of one column, in row order. -/
def Table.colValues (t : Table) (c : String) : List Value :=
  t.rows.map fun r => r.get c

/-- `df[c] = g(df[c])` guarded by column presence, used for the source's
`if c in df.columns:` coercion blocks. -/
def applyIfCol (t : Table) (c : String) (g : Value → Value) : Table :=
  if c ∈ t.cols then t.mapCol c g else t

-- ----------------------------------------------------------------
-- Static schema and canonical maps (etl.py, lines 52-104)
-- ----------------------------------------------------------------

/-- `STANDARD_COLS` from etl.py. -/
def STANDARD_COLS : List String :=
  ["review_id", "customer_name", "review_date", "rating_raw", "rating_scale",
   "rating_1_5", "review_text", "location", "restaurant_name",
   "total_spent", "tip_amount", "tip_percentage", "party_size",
   "age_range", "gender", "ethnicity", "source_file"]

/-- `SYNONYMS` from etl.py, in declaration order. -/
def SYNONYMS : List (String × List String) :=
  [("review_id", ["review_id", "review_number", "id"]),
   ("customer_name", ["customer_name", "guest_name", "name"]),
   ("review_date", ["date", "visit_date", "review_date"]),
   ("rating_raw", ["rating", "satisfaction_score", "rating_out_of_10", "star_rating"]),
   ("review_text", ["review_text", "feedback_comments", "comments"]),
   ("location", ["location", "venue_location", "venue"]),
   ("restaurant_name", ["restaurant_name", "business_name", "establishment"]),
   ("total_spent", ["total_spent"]),
   ("tip_amount", ["tip_amount"]),
   ("tip_percentage", ["tip_percentage"]),
   ("party_size", ["party_size"]),
   ("age_range", ["age_range"]),
   ("gender", ["gender"]),
   ("ethnicity", ["ethnicity"])]

/-- `GENDER_MAP` from etl.py. -/
def GENDER_MAP : List (String × String) :=
  [("m", "male"), ("male", "male"),
   ("f", "female"), ("female", "female"),
   ("o", "other"), ("other", "other"),
   ("non-binary", "non_binary"),
   ("prefer not to say", "na")]

/-- `ETHNICITY_MAP` from etl.py. -/
def ETHNICITY_MAP : List (String × String) :=
  [("caucasian", "caucasian"), ("white", "caucasian"),
   ("black", "african_american"), ("african american", "african_american"),
   ("asian", "asian"), ("latino", "hispanic"), ("hispanic", "hispanic"),
   ("mixed", "mixed"), ("native american", "native_american"),
   ("other", "other")]

/-- `AGE_RANGE_MAP` from etl.py. -/
def AGE_RANGE_MAP : List (String × String) :=
  [("18-25", "young_adult"), ("26-35", "adult"), ("36-45", "mid_age"),
   ("46-55", "mature"), ("56-65", "senior"), ("65+", "elder")]

-- ----------------------------------------------------------------
-- Column-name normalization and synonym resolution (etl.py, 125-140)
-- ----------------------------------------------------------------

/-- Character-level strip, modelling Python `str.strip`: drop whitespace
from both ends. -/
def trimChars (cs : List Char) : List Char :=
  ((cs.dropWhile Char.isWhitespace).reverse.dropWhile Char.isWhitespace).reverse

/-- String strip on the character list, modelling Python `str.strip`. -/
def strTrim (s : String) : String := String.mk (trimChars s.data)

/-- String lowercasing, modelling Python `str.lower`. -/
def strLower (s : String) : String := String.mk (s.data.map Char.toLower)

/-- One pass of `re.sub(r"[\s]+", "_", c)`: each maximal whitespace run
becomes a single underscore.  The boolean remembers whether the previous
character was whitespace. -/
def collapseWsAux : Bool → List Char → List Char
  | _, [] => []
  | prevWs, ch :: rest =>
    if ch.isWhitespace then
      (if prevWs then [] else ['_']) ++ collapseWsAux true rest
    else ch :: collapseWsAux false rest

/-- `normalize_colname` from etl.py: strip, lowercase, collapse whitespace
runs to single underscores. -/
def normalize_colname (c : String) : String :=
  String.mk (collapseWsAux false ((trimChars c.data).map Char.toLower))

/-- The last raw column whose normalized name equals `key`; models the raw
dict comprehension `{normalize_colname(c): c for c in raw_cols}`, where a
later column overwrites an earlier one under the same normalized name. -/
def rawNormLookup (rawCols : List String) (key : String) : Option String :=
  (rawCols.filter fun c => normalize_colname c = key).getLast?

/-- `build_colmap` from etl.py: for each unified field, the first declared
alias whose normalized form matches a raw column wins. -/
def build_colmap (rawCols : List String) (synonyms : List (String × List String)) :
    List (String × String) :=
  synonyms.filterMap fun p =>
    (p.2.findSome? fun alt => rawNormLookup rawCols (normalize_colname alt)).map
      fun rawc => (p.1, rawc)

-- ----------------------------------------------------------------
-- Cell-level coercions (etl.py, 143-160)
-- ----------------------------------------------------------------

/-- Models `pd.to_numeric` on a string: parse an optional sign, an integer
part, and an optional fractional part.  Stand-in for the pandas parser;
no verified claim depends on which strings parse. -/
def parseRatAux (ds : List Char) (acc : ℚ) : Option ℚ :=
  ds.foldl (fun o d => o.bind fun a =>
    if d.isDigit then some (a * 10 + (d.toNat - 48 : ℕ)) else none) (some acc)

/-- String-to-rational parsing used by the `pd.to_numeric` model. -/
def parseRat (s : String) : Option ℚ :=
  let core := fun (body : List Char) =>
    match body.span (fun c => c ≠ '.') with
    | (intPart, []) =>
      if intPart = [] then none else parseRatAux intPart 0
    | (intPart, _ :: fracPart) =>
      if intPart = [] ∧ fracPart = [] then none
      else
        (parseRatAux intPart 0).bind fun i =>
          (parseRatAux fracPart 0).map fun f =>
            i + f / (10 : ℚ) ^ fracPart.length
  match trimChars s.data with
  | '-' :: rest => (core rest).map Neg.neg
  | '+' :: rest => core rest
  | rest => core rest

/-- `coerce_numeric` (etl.py line 143) on one cell: `pd.to_numeric(s,
errors="coerce")` — invalid parsing becomes missing, never raises. -/
def coerce_numericV : Value → Value
  | .num q => .num q
  | .str s => match parseRat s with
    | some q => .num q
    | none => .missing
  | .missing => .missing

/-- Decimal rendering of a rational, modelling how pandas `astype("string")`
prints a numeric cell; no verified claim depends on the exact text. -/
def numToString (q : ℚ) : String := toString q

/-- `coerce_str` (etl.py line 148) on one cell: convert to string dtype and
strip whitespace; missing stays missing. -/
def coerce_strV : Value → Value
  | .num q => .str (numToString q)
  | .str s => .str (strTrim s)
  | .missing => .missing

/-- `clean_review_text` (etl.py line 153) on one cell: string-coerce, strip,
and turn the empty string into missing. -/
def clean_review_textV (v : Value) : Value :=
  match coerce_strV v with
  | .str s => if s = "" then .missing else .str s
  | w => w

/-- Split a character list at a separator character. -/
def splitChar (sep : Char) (cs : List Char) : List (List Char) :=
  cs.foldr (fun ch acc =>
    if ch = sep then [] :: acc
    else match acc with
      | a :: rest => (ch :: a) :: rest
      | [] => [[ch]]) [[]]

/-- Decimal digits to a natural number. -/
def digitsToNat (cs : List Char) : ℕ :=
  cs.foldl (fun a c => a * 10 + (c.toNat - 48)) 0

/-- Models `pd.to_datetime(..., errors="coerce")` on a string: accepts
`YYYY-MM-DD` and encodes it as the number `y*10000 + m*100 + d`; anything
else is unparsable.  Stand-in for the pandas date parser; no verified claim
depends on which strings parse or on the encoding. -/
def parseDate (s : String) : Option ℚ :=
  match splitChar '-' (trimChars s.data) with
  | [y, m, d] =>
    if y ≠ [] ∧ m ≠ [] ∧ d ≠ [] ∧ (y ++ m ++ d).all Char.isDigit then
      some ((digitsToNat y * 10000 + digitsToNat m * 100 + digitsToNat d : ℕ) : ℚ)
    else none
  | _ => none

/-- `coerce_date` (etl.py line 158) on one cell: invalid parsing becomes
missing (NaT), never raises.  Numeric cells stay as their (epoch-style)
numeric value, mirroring pandas interpreting numbers as timestamps. -/
def coerce_dateV : Value → Value
  | .num q => .num q
  | .str s => match parseDate s with
    | some q => .num q
    | none => .missing
  | .missing => .missing

/-- Lowercase a string cell (`.str.lower()`); other cells pass through. -/
def toLowerV : Value → Value
  | .str s => .str (strLower s)
  | v => v

-- ----------------------------------------------------------------
-- Rating-scale inference (etl.py, 163-173)
-- ----------------------------------------------------------------

/-- The non-missing numeric values of a column after `pd.to_numeric`
coercion. -/
def numericValues (vals : List Value) : List ℚ :=
  vals.filterMap fun v =>
    match coerce_numericV v with
    | .num q => some q
    | _ => none

/-- `vmax = pd.to_numeric(series).max(skipna=True)`: the maximum non-missing
numeric value, or none when there is none. -/
def numericMax (vals : List Value) : Option ℚ :=
  (numericValues vals).max?

/-- `infer_rating_scale` from etl.py: 5 when no values are present, 10 when
5 < vmax ≤ 10, 100 when 10 < vmax ≤ 100, and 5 otherwise. -/
def infer_rating_scale (vals : List Value) : ℚ :=
  match numericMax vals with
  | none => 5
  | some vmax =>
    if 5 < vmax ∧ vmax ≤ 10 then 10
    else if 10 < vmax ∧ vmax ≤ 100 then 100
    else 5

/-- One cell of `df["rating_1_5"] = (df["rating_raw"] / scale) * 5.0`:
missing propagates (NaN arithmetic). -/
def rating15V (v : Value) (scale : ℚ) : Value :=
  match v with
  | .num q => .num (q / scale * 5)
  | _ => .missing

-- ----------------------------------------------------------------
-- Tip percentage (etl.py, 176-192)
-- ----------------------------------------------------------------

/-- The pandas test `series.gt(0)` on one cell: true exactly for positive
numeric cells (NaN and strings compare false). -/
def isPosV : Value → Bool
  | .num q => decide (0 < q)
  | _ => false

/-- Row form of the `compute_tip_pct` mask and assignment: fill
tip_percentage with tip_amount / total_spent * 100 exactly when the current
value is missing or zero, total_spent > 0, and tip_amount is present. -/
def computeTipRow (r : Row) : Value :=
  let tp := r.get "tip_percentage"
  let ts := r.get "total_spent"
  let ta := r.get "tip_amount"
  let needs := tp = Value.missing ∨ tp = Value.num 0
  if needs ∧ isPosV ts = true ∧ ta ≠ Value.missing then
    match ts, ta with
    | .num s, .num a => .num (a / s * 100)
    | _, _ => tp
  else tp

/-- `compute_tip_pct` from etl.py: ensure the tip_percentage column exists
(new column of NaN when absent), then fill it row-wise under the mask.
The call site guarantees total_spent and tip_amount are columns. -/
def compute_tip_pct (t : Table) : Table :=
  let t1 := if "tip_percentage" ∈ t.cols then t
            else t.setCol "tip_percentage" fun _ => .missing
  t1.setCol "tip_percentage" computeTipRow

/-- One cell of `cap_tip_percentage`: `df.loc[df["tip_percentage"] > cap] =
cap` touches exactly the numeric cells above the cap (NaN compares false). -/
def capTipV (cap : ℚ) : Value → Value
  | .num q => if cap < q then .num cap else .num q
  | v => v

/-- `cap_tip_percentage` from etl.py (default cap 30). -/
def cap_tip_percentage (t : Table) (cap : ℚ) : Table :=
  if "tip_percentage" ∈ t.cols then t.mapCol "tip_percentage" (capTipV cap) else t

-- ----------------------------------------------------------------
-- Derived modelling columns (etl.py, 195-209)
-- ----------------------------------------------------------------

/-- Stand-in for `np.log1p` on a nonnegative rational; `log1p` is a strictly
monotone injection and no verified claim inspects the stored value, so the
model keeps the (clipped) argument itself. -/
def log1pModel (q : ℚ) : ℚ := q

/-- One cell of `add_log_total_spent`: clip at 0 then log1p; missing
propagates. -/
def logSpendV : Value → Value
  | .num q => .num (log1pModel (max q 0))
  | _ => .missing

/-- `add_log_total_spent` from etl.py. -/
def add_log_total_spent (t : Table) : Table :=
  if "total_spent" ∈ t.cols then t.setCol "log_total_spent" (fun r => logSpendV (r.get "total_spent"))
  else t

/-- One cell of the review-length column: character count of the text,
missing for missing text. -/
def reviewLenV : Value → Value
  | .str s => .num (s.length : ℚ)
  | .num q => .num ((numToString q).length : ℚ)
  | .missing => .missing

/-- One cell of the truncation column: first `maxLen` characters. -/
def truncV (maxLen : ℕ) : Value → Value
  | .str s => .str (s.take maxLen)
  | .num q => .str ((numToString q).take maxLen)
  | .missing => .missing

/-- `cap_review_length` from etl.py: adds review_length and a truncated
text column when review_text exists. -/
def cap_review_length (t : Table) (maxLen : ℕ) : Table :=
  if "review_text" ∈ t.cols then
    (t.setCol "review_length" fun r => reviewLenV (r.get "review_text")).setCol
      "review_text_trunc" fun r => truncV maxLen (r.get "review_text")
  else t

-- ----------------------------------------------------------------
-- Deduplication (etl.py, 215-241)
-- ----------------------------------------------------------------

/-- Is every listed column of the row missing?  Used for `dropna(how="all")`
with the table's full column list. -/
def allMissing (cols : List String) (r : Row) : Bool :=
  cols.all fun c => r.get c = Value.missing

/-- Stage 1 of `deduplicate_reviews`: `df.dropna(how="all")` keeps exactly
the rows with at least one non-missing cell. -/
def dropEmptyRows (t : Table) : Table :=
  { cols := t.cols, rows := t.rows.filter fun r => ¬ allMissing t.cols r }

/-- `drop_duplicates(subset=key, keep="first")` kernel: keep a row when its
key tuple was not seen before it.  pandas treats NaN keys as equal to each
other, which `Value.missing = Value.missing` mirrors. -/
def dedupByKeyAux (key : Row → List Value) (seen : List (List Value)) :
    List Row → List Row
  | [] => []
  | r :: rest =>
    if key r ∈ seen then dedupByKeyAux key seen rest
    else r :: dedupByKeyAux key (key r :: seen) rest

/-- `drop_duplicates(subset=keyCols, keep="first")` on a table. -/
def dedupByKey (t : Table) (keyCols : List String) : Table :=
  { cols := t.cols
    rows := dedupByKeyAux (fun r => keyCols.map r.get) [] t.rows }

/-- Stage 2 of `deduplicate_reviews`: drop duplicate review_texts (keep
first) when the column exists. -/
def dedupStage2 (t : Table) : Table :=
  if "review_text" ∈ t.cols then dedupByKey t ["review_text"] else t

/-- The composite key columns of stage 3: whichever of the four key columns
are present in the table. -/
def dedupKeyCols (t : Table) : List String :=
  ["customer_name", "review_text", "review_date", "restaurant_name"].filter
    fun c => c ∈ t.cols

/-- Stage 3: composite-key deduplication; a no-op when none of the four
columns exists. -/
def dedupStage3 (t : Table) : Table :=
  if dedupKeyCols t ≠ [] then dedupByKey t (dedupKeyCols t) else t

/-- `deduplicate_reviews` from etl.py: drop fully empty rows, then drop
duplicate review_texts, then drop duplicates of the composite key among
whichever of its four columns are present (keep first throughout). -/
def deduplicate_reviews (t : Table) : Table :=
  dedupStage3 (dedupStage2 (dropEmptyRows t))

-- ----------------------------------------------------------------
-- ReviewLoader.load_and_standardize (etl.py, 285-360)
-- ----------------------------------------------------------------

/-- Column selection `df = pd.DataFrame(selected)`: one unified column per
resolved mapping entry, in synonym-declaration order.  `pd.DataFrame` of an
empty dict has zero rows, which the guard mirrors. -/
def etlSelect (rawCols : List String) (rawRows : List Row) : Table :=
  let mapping := build_colmap (rawCols.map normalize_colname) SYNONYMS
  { cols := mapping.map Prod.fst
    rows := if mapping.isEmpty then []
      else rawRows.map fun r =>
        mapping.map fun p => (p.1, Row.get (r.map fun q => (normalize_colname q.1, q.2)) p.2) }

/-- `df["source_file"] = spec.path.name`. -/
def etlSource (name : String) (t : Table) : Table :=
  t.setCol "source_file" fun _ => .str name

/-- The type-coercion block of `load_and_standardize` (etl.py 304-312). -/
def etlTyped (t : Table) : Table :=
  let t1 := applyIfCol t "customer_name" coerce_strV
  let t2 := applyIfCol t1 "review_text" clean_review_textV
  let t3 := applyIfCol t2 "location" coerce_strV
  let t4 := applyIfCol t3 "restaurant_name" coerce_strV
  let t5 := applyIfCol t4 "review_date" coerce_dateV
  let t6 := applyIfCol t5 "total_spent" coerce_numericV
  let t7 := applyIfCol t6 "tip_amount" coerce_numericV
  let t8 := applyIfCol t7 "tip_percentage" coerce_numericV
  applyIfCol t8 "party_size" coerce_numericV

/-- The ratings block of `load_and_standardize` (etl.py 315-323): coerce the
rating, infer one scale for the whole file, and derive rating_1_5; with no
rating column all three fields become missing. -/
def etlRatings (t : Table) : Table :=
  if "rating_raw" ∈ t.cols then
    let t1 := t.mapCol "rating_raw" coerce_numericV
    let scale := infer_rating_scale (t1.colValues "rating_raw")
    let t2 := t1.setCol "rating_scale" fun _ => .num scale
    t2.setCol "rating_1_5" fun r => rating15V (r.get "rating_raw") scale
  else
    ((t.setCol "rating_raw" fun _ => .missing).setCol "rating_scale"
      fun _ => .missing).setCol "rating_1_5" fun _ => .missing

/-- The tip block (etl.py 326-327): compute_tip_pct only when both
total_spent and tip_amount are columns. -/
def etlTip (t : Table) : Table :=
  if "total_spent" ∈ t.cols ∧ "tip_amount" ∈ t.cols then compute_tip_pct t else t

/-- Canonical-map lookup with identity fallback:
`col.map(M).fillna(col)` on one (string-coerced, lowercased) cell. -/
def mapFillV (m : List (String × String)) : Value → Value
  | .str s => .str ((List.lookup s m).getD s)
  | v => v

/-- One categorical block (etl.py 330-343): lowercase the raw column, then
derive the normalized column through the canonical map with identity
fallback.  The per-source category bookkeeping is a side effect the claims
do not touch. -/
def etlCatOne (t : Table) (rawCol normCol : String) (m : List (String × String)) : Table :=
  if rawCol ∈ t.cols then
    let t1 := t.mapCol rawCol fun v => toLowerV (coerce_strV v)
    t1.setCol normCol fun r => mapFillV m (r.get rawCol)
  else t

/-- All three categorical blocks in source order. -/
def etlCats (t : Table) : Table :=
  etlCatOne (etlCatOne (etlCatOne t "gender" "gender_norm" GENDER_MAP)
    "ethnicity" "ethnicity_norm" ETHNICITY_MAP) "age_range" "age_group" AGE_RANGE_MAP

/-- The ensure-all-standard-columns loop (etl.py 346-348). -/
def etlEnsure (t : Table) : Table :=
  STANDARD_COLS.foldl
    (fun acc c => if c ∈ acc.cols then acc else acc.setCol c fun _ => .missing) t

/-- The outlier-handling block (etl.py 351-353). -/
def etlOutlier (t : Table) : Table :=
  cap_review_length (add_log_total_spent (cap_tip_percentage t 30)) 2000

/-- The table reaching the deduplication call inside
`load_and_standardize`. -/
def preDedup (rawCols : List String) (rawRows : List Row) (name : String) : Table :=
  etlOutlier (etlEnsure (etlCats (etlTip (etlRatings (etlTyped
    (etlSource name (etlSelect rawCols rawRows)))))))

/-- The expected output columns (etl.py line 358). -/
def expectedCols : List String :=
  STANDARD_COLS ++ ["gender_norm", "ethnicity_norm", "age_group"]

/-- The final column selection `df[available_cols]` (etl.py 358-360): rows
are re-built from the kept columns. -/
def finalSelect (t : Table) : Table :=
  let available := expectedCols.filter fun c => c ∈ t.cols
  { cols := available
    rows := t.rows.map fun r => available.map fun c => (c, r.get c) }

/-- `ReviewLoader.load_and_standardize` on an already-parsed raw table
(file reading is the external boundary, see `read_table_any`). -/
def load_and_standardize (rawCols : List String) (rawRows : List Row)
    (name : String) : Table :=
  finalSelect (deduplicate_reviews (preDedup rawCols rawRows name))

-- ----------------------------------------------------------------
-- read_table_any (etl.py, 110-122)
-- ----------------------------------------------------------------

/-- The parsed shape of a raw file: columns plus rows. -/
structure RawTable where
  cols : List String
  rows : List Row
deriving DecidableEq, Repr

/-- `read_table_any` from etl.py, with the two pandas read attempts as the
external-parser boundary: the first attempt (auto/sep-detected read) and
the comma-separated retry.  A supported suffix takes the first attempt and
falls back to the retry on failure; the retry is not guarded, so its error
propagates.  An unsupported suffix raises ValueError. -/
def read_table_any (suffix : String)
    (attemptAuto attemptComma : Except String RawTable) : Except String RawTable :=
  if suffix = ".csv" ∨ suffix = ".txt" then
    match attemptAuto with
    | .ok t => .ok t
    | .error _ => attemptComma
  else .error "Unsupported file type"

/-- The duplicate-label selection condition of `pd.DataFrame(selected)`
(etl/etl.py line 300): after the header is normalized in place, a resolved
alias that labels more than one column of the renamed frame makes
`df_raw[raw_col]` a two-column DataFrame, and the `pd.DataFrame`
constructor then raises ValueError.  True exactly when some mapping value
occurs at least twice among the normalized column labels. -/
def dupSelected (rawCols : List String) : Bool :=
  (build_colmap (rawCols.map normalize_colname) SYNONYMS).any fun p =>
    1 < (rawCols.map normalize_colname).count p.2

/-- The whole of `load_and_standardize` including the file read: after a
successful read, the selection constructor raises on a duplicate-label
alias (`dupSelected`); everything past that point is a total function and
never raises. -/
def load_and_standardize_io (suffix : String)
    (attemptAuto attemptComma : Except String RawTable) (name : String) :
    Except String Table :=
  match read_table_any suffix attemptAuto attemptComma with
  | .error e => .error e
  | .ok raw =>
    if dupSelected raw.cols then .error "Data must be 1-dimensional"
    else .ok (load_and_standardize raw.cols raw.rows name)

-- ----------------------------------------------------------------
-- Validation statuses (etl_validation.py)
-- ----------------------------------------------------------------

/-- The severity-graded report status. -/
inductive Status where
  | pass
  | warn
  | fail
deriving DecidableEq, Repr

/-- Numeric severity: pass 0, warn 1, fail 2. -/
def Status.sev : Status → ℕ
  | .pass => 0
  | .warn => 1
  | .fail => 2

/-- Worst-of combination of two statuses. -/
def statusMax (a b : Status) : Status :=
  if a.sev ≤ b.sev then b else a

-- ----------------------------------------------------------------
-- Helpers shared by the validation checks
-- ----------------------------------------------------------------

/-- Number of missing cells of one column. -/
def missingCount (t : Table) (c : String) : ℕ :=
  t.rows.countP fun r => r.get c = Value.missing

/-- `df[c].isna().mean()` as a rational.  For an empty table pandas yields
NaN, and every `NaN > threshold` comparison is false; rational division by
zero yields 0, whose comparisons with the positive thresholds agree. -/
def missingFrac (t : Table) (c : String) : ℚ :=
  (missingCount t c : ℚ) / (t.rows.length : ℚ)

/-- `df[c].duplicated().sum()`: row count minus the number of distinct
values (pandas counts the NaNs as duplicates of each other, as does
`Value` equality). -/
def duplicatedCount (t : Table) (c : String) : ℕ :=
  t.rows.length - ((t.colValues c).dedup).length

/-- Count of rows whose numeric cell in `c` satisfies `p`; NaN (and the
never-occurring string case) compare false, as in pandas. -/
def countNum (t : Table) (c : String) (p : ℚ → Prop) [DecidablePred p] : ℕ :=
  t.rows.countP fun r =>
    match r.get c with
    | .num q => decide (p q)
    | _ => false

-- ----------------------------------------------------------------
-- validate_processed_data (etl_validation.py, 61-160)
-- ----------------------------------------------------------------

/-- Check 1: required columns (fail when any is absent). -/
def missingRequired (t : Table) : List String :=
  ["review_id", "rating_1_5", "review_text"].filter fun c => ¬ c ∈ t.cols

/-- The unmapped-category observation for one `_norm`/`_group` column:
the distinct raw values among rows whose normalized cell is missing while
the raw cell is present (etl_validation.py 141, 146, 151). -/
def unmappedValues (t : Table) (normCol rawCol : String) : List Value :=
  ((t.rows.filter fun r =>
      r.get normCol = Value.missing ∧ r.get rawCol ≠ Value.missing).map
    fun r => r.get rawCol).dedup

/-- Check 9's `cat_warnings` dict: one entry per categorical column whose
normalized column exists and produced unmapped observations. -/
def catWarnings (t : Table) : List (String × List Value) :=
  (if "gender_norm" ∈ t.cols ∧ unmappedValues t "gender_norm" "gender" ≠ []
   then [("gender", unmappedValues t "gender_norm" "gender")] else []) ++
  (if "ethnicity_norm" ∈ t.cols ∧ unmappedValues t "ethnicity_norm" "ethnicity" ≠ []
   then [("ethnicity", unmappedValues t "ethnicity_norm" "ethnicity")] else []) ++
  (if "age_group" ∈ t.cols ∧ unmappedValues t "age_group" "age_range" ≠ []
   then [("age_range", unmappedValues t "age_group" "age_range")] else [])

/-- Escalation shape of the hard checks: set fail when the condition holds,
keep the running status otherwise. -/
def failIf (b : Bool) (s : Status) : Status := if b then .fail else s

/-- Escalation shape of the soft checks: set warn when the condition holds
and the running status is still pass (`if cond and status == "pass"`). -/
def warnIf (b : Bool) (s : Status) : Status := if b ∧ s = .pass then .warn else s

/-- Check 3's row-count-mismatch condition; skipped when no raw row count
was given (`if row_count_raw is not None`). -/
def rowMismatch (rowCountRaw : Option ℕ) (len : ℕ) : Bool :=
  match rowCountRaw with
  | some n => decide ((n : ℤ) - (len : ℤ) ≠ 0)
  | none => false

/-- The status updates of `validate_processed_data`, in source order (the
missingness loop of check 7 contributes one update per threshold column).
Each is a function on the running status. -/
def vpdChecks (t : Table) (rowCountRaw : Option ℕ) : List (Status → Status) :=
  [failIf (decide (missingRequired t ≠ [])),
   failIf (decide ("review_id" ∈ t.cols ∧ 0 < duplicatedCount t "review_id")),
   failIf (rowMismatch rowCountRaw t.rows.length),
   failIf (decide ("rating_1_5" ∈ t.cols ∧
     0 < countNum t "rating_1_5" fun q => q < 1 ∨ 5 < q)),
   failIf (decide ("tip_percentage" ∈ t.cols ∧
     0 < countNum t "tip_percentage" fun q => 30 < q)),
   failIf (decide ("review_length" ∈ t.cols ∧
     0 < countNum t "review_length" fun q => 2000 < q)),
   warnIf (decide ("review_text" ∈ t.cols ∧ 40 / 100 < missingFrac t "review_text")),
   warnIf (decide ("age_range" ∈ t.cols ∧ 20 / 100 < missingFrac t "age_range")),
   failIf (decide ("review_text" ∈ t.cols ∧ 50 / 100 < missingFrac t "review_text")),
   warnIf (decide (catWarnings t ≠ []))]

/-- The fields of a per-source `validate_processed_data` report that the
claims inspect. -/
structure VReport where
  source : String
  rowCountProcessed : ℕ
  missingColumns : List String
  unmappedCategories : List (String × List Value)
  status : Status
deriving DecidableEq, Repr

/-- `validate_processed_data` from etl_validation.py: the report starts at
pass and the nine checks update the status in order. -/
def validate_processed_data (t : Table) (sourceName : String)
    (rowCountRaw : Option ℕ) : VReport :=
  { source := sourceName
    rowCountProcessed := t.rows.length
    missingColumns := missingRequired t
    unmappedCategories := catWarnings t
    status := (vpdChecks t rowCountRaw).foldl (fun s u => u s) .pass }

-- ----------------------------------------------------------------
-- validate_restaurant_info (etl_validation.py, 162-193)
-- ----------------------------------------------------------------

/-- `validate_restaurant_info`: required columns, avg_stars range [1,5],
non-negative total_reviews; fail on any violation, no warn tier. -/
def validate_restaurant_info (t : Table) : Status :=
  failIf (decide ("total_reviews" ∈ t.cols ∧ 0 < countNum t "total_reviews" fun q => q < 0))
    (failIf (decide ("avg_stars" ∈ t.cols ∧
        0 < countNum t "avg_stars" fun q => q < 1 ∨ 5 < q))
      (failIf (decide ((["restaurant_name", "address", "avg_stars", "total_reviews"].filter
          fun c => ¬ c ∈ t.cols) ≠ [])) .pass))

-- ----------------------------------------------------------------
-- _dedup_metrics and validate_with_integrity (etl_validation.py, 196-286)
-- ----------------------------------------------------------------

/-- `_dedup_metrics`' conflicting-ids count: review_id groups (groupby
drops missing keys) attributed to more than one distinct non-missing
customer_name. -/
def conflicting_ids (raw : Table) : ℕ :=
  if "review_id" ∈ raw.cols ∧ "customer_name" ∈ raw.cols then
    (((raw.colValues "review_id").filter fun v => v ≠ Value.missing).dedup.filter
      fun idv =>
        1 < (((raw.rows.filter fun r => r.get "review_id" = idv).map
              fun r => r.get "customer_name").filter
            fun v => v ≠ Value.missing).dedup.length).length
  else 0

/-- One entry of `all_data`: a (raw, processed, source) review triple, or a
(table, source, "restaurant_info") metadata pair.  The source dispatches on
the tuple's last element being the literal "restaurant_info". -/
inductive Entry where
  | review (raw processed : Table) (sourceName : String)
  | restaurantInfo (t : Table) (sourceName : String)

/-- The per-source status recorded in the combined report: the review path
runs `validate_processed_data` with the raw row count and then escalates
pass to warn on conflicting ids (etl_validation.py 275-276); the metadata
path runs `validate_restaurant_info`. -/
def conflictUpdate (raw : Table) (s : Status) : Status :=
  warnIf (decide (0 < conflicting_ids raw)) s

def entryStatus : Entry → Status
  | .review raw processed sourceName =>
    conflictUpdate raw
      (validate_processed_data processed sourceName (some raw.rows.length)).status
  | .restaurantInfo t _ => validate_restaurant_info t

/-- One iteration of the combined-status fold (etl_validation.py 257-258
and 280-283): the metadata path only propagates fail; the review path
propagates fail, and warn when the combined status is still pass. -/
def combineStep (c : Status) (e : Entry) : Status :=
  match e with
  | .review .. =>
    if entryStatus e = .fail then .fail
    else if entryStatus e = .warn ∧ c = .pass then .warn
    else c
  | .restaurantInfo .. =>
    if entryStatus e = .fail then .fail else c

/-- The fields of the combined report that the claims inspect. -/
structure CombinedReport where
  sources : List Status
  status : Status
deriving DecidableEq, Repr

/-- `validate_with_integrity` from etl_validation.py: per-source reports in
order, and the folded combined status starting from pass. -/
def validate_with_integrity (entries : List Entry) : CombinedReport :=
  { sources := entries.map entryStatus
    status := entries.foldl combineStep .pass }

-- ----------------------------------------------------------------
-- integrity_report (etl_validation.py, 17-58)
-- ----------------------------------------------------------------

/-- One row of the per-restaurant breakdown: review count and percentage
share are present exactly when review_id is a column, the distinct-customer
count exactly when customer_name is. -/
structure RestaurantRow where
  restaurant : Value
  reviews : Option ℕ
  uniqueCustomers : Option ℕ
  reviewsPct : Option ℚ
deriving DecidableEq, Repr

/-- `round(x, 2)` on a rational.  pandas rounds half to even; `round` here
rounds half up — the difference is confined to exact half-hundredths,
which no verified claim inspects. -/
def round2 (q : ℚ) : ℚ := (round (q * 100) : ℤ) / 100

/-- The grouped per-restaurant aggregation (etl_validation.py 46-56):
groupby drops missing restaurant names; `("review_id", "count")` counts
non-missing ids; `("customer_name", "nunique")` counts distinct non-missing
names.  Groups are listed in first-occurrence order (pandas sorts group
keys; no verified claim inspects the order). -/
def byRestaurantRows (t : Table) : List RestaurantRow :=
  (((t.colValues "restaurant_name").filter fun v => v ≠ Value.missing).dedup).map
    fun rv =>
      let group := t.rows.filter fun r => r.get "restaurant_name" = rv
      { restaurant := rv
        reviews := if "review_id" ∈ t.cols
          then some (group.countP fun r => r.get "review_id" ≠ Value.missing) else none
        uniqueCustomers := if "customer_name" ∈ t.cols
          then some (((group.map fun r => r.get "customer_name").filter
            fun v => v ≠ Value.missing).dedup.length) else none
        reviewsPct := if "review_id" ∈ t.cols
          then some (round2 ((group.countP fun r => r.get "review_id" ≠ Value.missing : ℚ) /
            (t.rows.length : ℚ) * 100)) else none }

/-- The fields of `integrity_report` that the claims inspect. -/
structure IReport where
  stage : String
  totalRows : ℕ
  byRestaurant : Option (List RestaurantRow)
deriving DecidableEq, Repr

/-- `integrity_report` from etl_validation.py: the per-restaurant breakdown
is attached only when restaurant_name is a column and the aggregation dict
is nonempty, i.e. review_id or customer_name is also a column. -/
def integrity_report (t : Table) (stage : String) : IReport :=
  { stage := stage
    totalRows := t.rows.length
    byRestaurant :=
      if "restaurant_name" ∈ t.cols ∧ ("review_id" ∈ t.cols ∨ "customer_name" ∈ t.cols)
      then some (byRestaurantRows t) else none }

-- ----------------------------------------------------------------
-- Basic lemmas on rows and tables
-- ----------------------------------------------------------------

theorem Row.get_set_self (r : Row) (c : String) (v : Value) :
    (r.set c v).get c = v := by
  simp [Row.get, Row.set, List.lookup]

theorem Row.get_set_ne (r : Row) (c x : String) (v : Value) (h : x ≠ c) :
    (r.set c v).get x = r.get x := by
  simp [Row.get, Row.set, List.lookup, beq_false_of_ne h]

@[simp] theorem cols_mapCol (t : Table) (c : String) (g : Value → Value) :
    (t.mapCol c g).cols = t.cols := rfl

@[simp] theorem cols_applyIfCol (t : Table) (c : String) (g : Value → Value) :
    (applyIfCol t c g).cols = t.cols := by
  unfold applyIfCol; split <;> rfl

theorem mem_cols_setCol (t : Table) (c x : String) (f : Row → Value) :
    x ∈ (t.setCol c f).cols ↔ x ∈ t.cols ∨ x = c := by
  unfold Table.setCol
  split
  · rename_i hc
    simp only [List.mem_append]
    constructor
    · exact Or.inl
    · rintro (h | rfl)
      · exact h
      · exact hc
  · simp [List.mem_append]

theorem mem_rows_setCol {t : Table} {c : String} {f : Row → Value} {r' : Row}
    (h : r' ∈ (t.setCol c f).rows) : ∃ r ∈ t.rows, r' = r.set c (f r) := by
  unfold Table.setCol at h
  simp only [List.mem_map] at h
  obtain ⟨r, hr, hr2⟩ := h
  exact ⟨r, hr, hr2.symm⟩

theorem mem_rows_mapCol {t : Table} {c : String} {g : Value → Value} {r' : Row}
    (h : r' ∈ (t.mapCol c g).rows) : ∃ r ∈ t.rows, r' = r.set c (g (r.get c)) := by
  unfold Table.mapCol at h
  simp only [List.mem_map] at h
  obtain ⟨r, hr, hr2⟩ := h
  exact ⟨r, hr, hr2.symm⟩

theorem mem_rows_applyIfCol {t : Table} {c : String} {g : Value → Value} {r' : Row}
    (h : r' ∈ (applyIfCol t c g).rows) :
    ∃ r ∈ t.rows, r' = r ∨ r' = r.set c (g (r.get c)) := by
  unfold applyIfCol at h
  split at h
  · obtain ⟨r, hr, hr2⟩ := mem_rows_mapCol h
    exact ⟨r, hr, Or.inr hr2⟩
  · exact ⟨r', h, Or.inl rfl⟩

/-- Cell lookup on a row re-built from a column list (the shape produced by
`finalSelect` and `etlSelect`). -/
theorem get_rebuilt (l : List String) (g : String → Value) (x : String) :
    Row.get (l.map fun c => (c, g c)) x = if x ∈ l then g x else .missing := by
  induction l with
  | nil => simp [Row.get, List.lookup]
  | cons c cs ih =>
    by_cases hx : x = c
    · subst hx
      simp [Row.get, List.lookup]
    · simp only [List.map_cons, List.mem_cons]
      rw [show Row.get ((c, g c) :: cs.map fun d => (d, g d)) x
            = Row.get (cs.map fun d => (d, g d)) x from by
          simp [Row.get, List.lookup, beq_false_of_ne hx]]
      rw [ih]
      simp [hx]

-- ----------------------------------------------------------------
-- Column-set lemmas for the pipeline steps
-- ----------------------------------------------------------------

theorem cols_etlSelect (rawCols : List String) (rawRows : List Row) :
    (etlSelect rawCols rawRows).cols
      = (build_colmap (rawCols.map normalize_colname) SYNONYMS).map Prod.fst := rfl

theorem mem_cols_etlSource (name : String) (t : Table) (x : String) :
    x ∈ (etlSource name t).cols ↔ x ∈ t.cols ∨ x = "source_file" :=
  mem_cols_setCol t "source_file" x _

@[simp] theorem cols_etlTyped (t : Table) : (etlTyped t).cols = t.cols := by
  unfold etlTyped
  simp

theorem mem_cols_etlRatings (t : Table) (x : String) :
    x ∈ (etlRatings t).cols ↔
      x ∈ t.cols ∨ x = "rating_raw" ∨ x = "rating_scale" ∨ x = "rating_1_5" := by
  unfold etlRatings
  split
  · rename_i hr
    rw [mem_cols_setCol, mem_cols_setCol, cols_mapCol]
    constructor
    · rintro ((h | rfl) | rfl) <;> tauto
    · rintro (h | rfl | rfl | rfl) <;> tauto
  · rw [mem_cols_setCol, mem_cols_setCol, mem_cols_setCol]
    tauto

theorem mem_cols_compute_tip (t : Table) (x : String) :
    x ∈ (compute_tip_pct t).cols ↔ x ∈ t.cols ∨ x = "tip_percentage" := by
  unfold compute_tip_pct
  split
  · rename_i hc
    rw [mem_cols_setCol]
  · rw [mem_cols_setCol, mem_cols_setCol]
    tauto

theorem mem_cols_etlTip (t : Table) (x : String) :
    x ∈ (etlTip t).cols ↔
      x ∈ t.cols ∨ (x = "tip_percentage" ∧ "total_spent" ∈ t.cols ∧ "tip_amount" ∈ t.cols) := by
  unfold etlTip
  split
  · rename_i hc
    rw [mem_cols_compute_tip]
    tauto
  · tauto

theorem mem_cols_etlCatOne (t : Table) (rawCol normCol : String)
    (m : List (String × String)) (x : String) :
    x ∈ (etlCatOne t rawCol normCol m).cols ↔
      x ∈ t.cols ∨ (x = normCol ∧ rawCol ∈ t.cols) := by
  unfold etlCatOne
  split
  · rename_i hc
    rw [mem_cols_setCol, cols_mapCol]
    tauto
  · tauto

theorem mem_cols_etlCats (t : Table) (x : String) :
    x ∈ (etlCats t).cols ↔
      x ∈ t.cols ∨ (x = "gender_norm" ∧ "gender" ∈ t.cols)
        ∨ (x = "ethnicity_norm" ∧ "ethnicity" ∈ t.cols)
        ∨ (x = "age_group" ∧ "age_range" ∈ t.cols) := by
  unfold etlCats
  have hag : ("age_range" : String) ≠ "gender_norm" := by decide
  have hae : ("age_range" : String) ≠ "ethnicity_norm" := by decide
  have heg : ("ethnicity" : String) ≠ "gender_norm" := by decide
  simp only [mem_cols_etlCatOne]
  constructor
  · rintro (((h | ⟨rfl, hg⟩) | ⟨rfl, he⟩) | ⟨rfl, ha⟩)
    · tauto
    · tauto
    · rcases he with he | ⟨habs, hmm1⟩
      · tauto
      · exact absurd habs heg
    · rcases ha with (ha | ⟨habs, hmm1⟩) | ⟨habs, hmm1⟩
      · tauto
      · exact absurd habs hag
      · exact absurd habs hae
  · rintro (h | ⟨rfl, hg⟩ | ⟨rfl, he⟩ | ⟨rfl, ha⟩)
    · tauto
    · tauto
    · exact Or.inl (Or.inr ⟨rfl, Or.inl he⟩)
    · exact Or.inr ⟨rfl, Or.inl (Or.inl ha)⟩

/-- The inner fold of `etlEnsure`, for induction. -/
def ensureFold (l : List String) (t : Table) : Table :=
  l.foldl (fun acc c => if c ∈ acc.cols then acc else acc.setCol c fun _ => .missing) t

theorem etlEnsure_eq_fold (t : Table) : etlEnsure t = ensureFold STANDARD_COLS t := rfl

theorem mem_cols_ensureFold (l : List String) (t : Table) (x : String) :
    x ∈ (ensureFold l t).cols ↔ x ∈ t.cols ∨ x ∈ l := by
  induction l generalizing t with
  | nil => simp [ensureFold]
  | cons c cs ih =>
    show x ∈ (ensureFold cs (if c ∈ t.cols then t else t.setCol c fun _ => .missing)).cols ↔ _
    rw [ih]
    split
    · rename_i hc
      constructor
      · rintro (h | h) <;> simp_all
      · rintro (h | h)
        · tauto
        · rcases List.mem_cons.mp h with rfl | h <;> tauto
    · rw [mem_cols_setCol]
      constructor
      · rintro ((h | rfl) | h) <;> simp_all
      · rintro (h | h)
        · tauto
        · rcases List.mem_cons.mp h with rfl | h <;> tauto

theorem mem_cols_etlEnsure (t : Table) (x : String) :
    x ∈ (etlEnsure t).cols ↔ x ∈ t.cols ∨ x ∈ STANDARD_COLS := by
  rw [etlEnsure_eq_fold, mem_cols_ensureFold]

@[simp] theorem cols_cap_tip (t : Table) (cap : ℚ) :
    (cap_tip_percentage t cap).cols = t.cols := by
  unfold cap_tip_percentage; split <;> rfl

theorem mem_cols_add_log (t : Table) (x : String) :
    x ∈ (add_log_total_spent t).cols ↔
      x ∈ t.cols ∨ (x = "log_total_spent" ∧ "total_spent" ∈ t.cols) := by
  unfold add_log_total_spent
  split
  · rename_i hc
    rw [mem_cols_setCol]
    tauto
  · tauto

theorem mem_cols_cap_review_length (t : Table) (n : ℕ) (x : String) :
    x ∈ (cap_review_length t n).cols ↔
      x ∈ t.cols ∨ ((x = "review_length" ∨ x = "review_text_trunc") ∧ "review_text" ∈ t.cols) := by
  unfold cap_review_length
  split
  · rename_i hc
    rw [mem_cols_setCol, mem_cols_setCol]
    tauto
  · tauto

theorem mem_cols_etlOutlier (t : Table) (x : String) :
    x ∈ (etlOutlier t).cols ↔
      x ∈ t.cols ∨ (x = "log_total_spent" ∧ "total_spent" ∈ t.cols)
        ∨ ((x = "review_length" ∨ x = "review_text_trunc") ∧ "review_text" ∈ t.cols) := by
  unfold etlOutlier
  have h1 : ("review_text" : String) ≠ "log_total_spent" := by decide
  simp only [mem_cols_cap_review_length, mem_cols_add_log, cols_cap_tip]
  tauto

@[simp] theorem cols_dropEmptyRows (t : Table) : (dropEmptyRows t).cols = t.cols := rfl

@[simp] theorem cols_dedupByKey (t : Table) (keyCols : List String) :
    (dedupByKey t keyCols).cols = t.cols := rfl

@[simp] theorem cols_dedupStage2 (t : Table) : (dedupStage2 t).cols = t.cols := by
  unfold dedupStage2; split <;> rfl

@[simp] theorem cols_dedupStage3 (t : Table) : (dedupStage3 t).cols = t.cols := by
  unfold dedupStage3; split <;> rfl

@[simp] theorem cols_deduplicate (t : Table) : (deduplicate_reviews t).cols = t.cols := by
  unfold deduplicate_reviews
  simp

-- ----------------------------------------------------------------
-- Row-level lemmas for the deduplication stages
-- ----------------------------------------------------------------

theorem dedupByKeyAux_sublist (key : Row → List Value) (seen : List (List Value)) :
    ∀ l : List Row, (dedupByKeyAux key seen l).Sublist l := by
  intro l
  induction l generalizing seen with
  | nil => simp [dedupByKeyAux]
  | cons r rest ih =>
    unfold dedupByKeyAux
    split
    · exact (ih seen).trans (List.sublist_cons_self r rest)
    · exact (ih (key r :: seen)).cons₂ r

theorem rows_dedupStage2_sublist (t : Table) : (dedupStage2 t).rows.Sublist t.rows := by
  unfold dedupStage2
  split
  · exact dedupByKeyAux_sublist _ _ _
  · exact List.Sublist.refl _

theorem rows_dedupStage3_sublist (t : Table) : (dedupStage3 t).rows.Sublist t.rows := by
  unfold dedupStage3
  split
  · exact dedupByKeyAux_sublist _ _ _
  · exact List.Sublist.refl _

theorem rows_deduplicate_sublist (t : Table) :
    (deduplicate_reviews t).rows.Sublist t.rows := by
  unfold deduplicate_reviews
  refine ((rows_dedupStage3_sublist _).trans ((rows_dedupStage2_sublist _).trans ?_))
  exact List.filter_sublist t.rows

/-- A key already recorded as seen never appears again in the
deduplicated output. -/
theorem dedupByKeyAux_filter_seen (key : Row → List Value) (k : List Value) :
    ∀ (seen : List (List Value)) (l : List Row), k ∈ seen →
      (dedupByKeyAux key seen l).filter (fun r => decide (key r = k)) = [] := by
  intro seen l
  induction l generalizing seen with
  | nil => intro _; simp [dedupByKeyAux]
  | cons r rest ih =>
    intro hk
    unfold dedupByKeyAux
    split
    · exact ih seen hk
    · rename_i hnotin
      have hne : key r ≠ k := fun he => hnotin (he ▸ hk)
      simp only [List.filter_cons, decide_eq_true_eq, if_neg hne]
      exact ih (key r :: seen) (List.mem_cons_of_mem _ hk)

/-- Filtering the deduplicated list by a fixed unseen key keeps exactly the
first occurrence of that key. -/
theorem dedupByKeyAux_filter_eq (key : Row → List Value) (k : List Value) :
    ∀ (seen : List (List Value)) (l : List Row), k ∉ seen →
      (dedupByKeyAux key seen l).filter (fun r => decide (key r = k))
        = (l.filter fun r => decide (key r = k)).take 1 := by
  intro seen l
  induction l generalizing seen with
  | nil => intro _; simp [dedupByKeyAux]
  | cons r rest ih =>
    intro hk
    by_cases hkey : key r = k
    · subst hkey
      have haux : dedupByKeyAux key seen (r :: rest)
          = r :: dedupByKeyAux key (key r :: seen) rest := by
        rw [dedupByKeyAux, if_neg hk]
      rw [haux, List.filter_cons_of_pos (by simp),
        List.filter_cons_of_pos (by simp),
        dedupByKeyAux_filter_seen key (key r) (key r :: seen) rest
          (List.mem_cons_self _ _)]
      simp
    · by_cases hseen : key r ∈ seen
      · have haux : dedupByKeyAux key seen (r :: rest) = dedupByKeyAux key seen rest := by
          rw [dedupByKeyAux, if_pos hseen]
        rw [haux, List.filter_cons_of_neg (by simp [hkey]), ih seen hk]
      · have haux : dedupByKeyAux key seen (r :: rest)
            = r :: dedupByKeyAux key (key r :: seen) rest := by
          rw [dedupByKeyAux, if_neg hseen]
        have hk2 : k ∉ key r :: seen := by
          intro hmem
          rcases List.mem_cons.mp hmem with he | hm
          · exact hkey he.symm
          · exact hk hm
        rw [haux, List.filter_cons_of_neg (by simp [hkey]),
          List.filter_cons_of_neg (by simp [hkey]), ih (key r :: seen) hk2]

/-- When at most one row satisfies a predicate that is invariant under key
equality, composite-key deduplication keeps exactly the rows satisfying it:
the single such row (if any) is the first of its key class, so it
survives. -/
theorem dedupByKeyAux_filter_of_unique (key : Row → List Value) (p : Row → Bool)
    (hp : ∀ r r2, key r = key r2 → p r = p r2) :
    ∀ (l : List Row) (seen : List (List Value)),
      (∀ k ∈ seen, ∀ r ∈ l, key r = k → p r = false) →
      l.countP p ≤ 1 →
      (dedupByKeyAux key seen l).filter p = l.filter p := by
  intro l
  induction l with
  | nil => intro seen _ _; simp [dedupByKeyAux]
  | cons r rest ih =>
    intro seen hseen hcount
    by_cases hmem : key r ∈ seen
    · have hpr : p r = false := hseen _ hmem r (List.mem_cons_self _ _) rfl
      rw [dedupByKeyAux, if_pos hmem, List.filter_cons_of_neg (by simp [hpr])]
      refine ih seen ?_ ?_
      · intro k hk r2 hr2 hkey
        exact hseen k hk r2 (List.mem_cons_of_mem _ hr2) hkey
      · exact le_trans (by rw [List.countP_cons]; exact Nat.le_add_right _ _) hcount
    · rw [dedupByKeyAux, if_neg hmem,
        show (r :: dedupByKeyAux key (key r :: seen) rest).filter p
          = if p r then r :: (dedupByKeyAux key (key r :: seen) rest).filter p
            else (dedupByKeyAux key (key r :: seen) rest).filter p from by
          split <;> rename_i hc <;> simp [List.filter_cons, hc]]
      by_cases hpr : p r = true
      · rw [if_pos hpr, List.filter_cons_of_pos hpr]
        have hrest : rest.countP p = 0 := by
          rw [List.countP_cons, hpr, if_pos rfl] at hcount
          omega
        have hrestf : rest.filter p = [] := by
          have hlen := List.countP_eq_length_filter p rest
          rw [hrest] at hlen
          exact List.length_eq_zero.mp hlen.symm
        have hsubf : ((dedupByKeyAux key (key r :: seen) rest).filter p).Sublist
            (rest.filter p) :=
          List.Sublist.filter p (dedupByKeyAux_sublist key (key r :: seen) rest)
        rw [hrestf] at hsubf
        rw [hrestf, List.sublist_nil.mp hsubf]
      · have hpr2 : p r = false := by
          cases hq : p r
          · rfl
          · exact absurd hq hpr
        rw [if_neg (by simp [hpr2]), List.filter_cons_of_neg (by simp [hpr2])]
        refine ih (key r :: seen) ?_ ?_
        · intro k hk r2 hr2 hkey
          rcases List.mem_cons.mp hk with rfl | hk2
          · rw [hp r2 r hkey]
            exact hpr2
          · exact hseen k hk2 r2 (List.mem_cons_of_mem _ hr2) hkey
        · exact le_trans (by rw [List.countP_cons]; exact Nat.le_add_right _ _) hcount

-- ----------------------------------------------------------------
-- Row chasing through the pipeline steps
-- ----------------------------------------------------------------

theorem get_setCol_all {t : Table} {c : String} {f : Row → Value} {r2 : Row}
    (h : r2 ∈ (t.setCol c f).rows) :
    ∃ r ∈ t.rows, ∀ x, x ≠ c → r2.get x = r.get x := by
  obtain ⟨r, hr, rfl⟩ := mem_rows_setCol h
  exact ⟨r, hr, fun x hx => Row.get_set_ne _ _ _ _ hx⟩

theorem get_mapCol_all {t : Table} {c : String} {g : Value → Value} {r2 : Row}
    (h : r2 ∈ (t.mapCol c g).rows) :
    ∃ r ∈ t.rows, ∀ x, x ≠ c → r2.get x = r.get x := by
  obtain ⟨r, hr, rfl⟩ := mem_rows_mapCol h
  exact ⟨r, hr, fun x hx => Row.get_set_ne _ _ _ _ hx⟩

theorem get_applyIfCol_all {t : Table} {c : String} {g : Value → Value} {r2 : Row}
    (h : r2 ∈ (applyIfCol t c g).rows) :
    ∃ r ∈ t.rows, ∀ x, x ≠ c → r2.get x = r.get x := by
  obtain ⟨r, hr, hcase⟩ := mem_rows_applyIfCol h
  refine ⟨r, hr, fun x hx => ?_⟩
  rcases hcase with h1 | h1
  · rw [h1]
  · rw [h1, Row.get_set_ne _ _ _ _ hx]

/-- The columns written by the type-coercion block. -/
def typedCols : List String :=
  ["customer_name", "review_text", "location", "restaurant_name", "review_date",
   "total_spent", "tip_amount", "tip_percentage", "party_size"]

theorem mem_rows_etlTyped {t : Table} {r2 : Row} (h : r2 ∈ (etlTyped t).rows) :
    ∃ r ∈ t.rows, ∀ x, ¬ x ∈ typedCols → r2.get x = r.get x := by
  unfold etlTyped at h
  obtain ⟨r8, h8, e8⟩ := get_applyIfCol_all h
  obtain ⟨r7, h7, e7⟩ := get_applyIfCol_all h8
  obtain ⟨r6, h6, e6⟩ := get_applyIfCol_all h7
  obtain ⟨r5, h5, e5⟩ := get_applyIfCol_all h6
  obtain ⟨r4, h4, e4⟩ := get_applyIfCol_all h5
  obtain ⟨r3, h3, e3⟩ := get_applyIfCol_all h4
  obtain ⟨r1, h1, e1⟩ := get_applyIfCol_all h3
  obtain ⟨r0, h0, e0⟩ := get_applyIfCol_all h1
  obtain ⟨r, hr, e⟩ := get_applyIfCol_all h0
  refine ⟨r, hr, fun x hx => ?_⟩
  simp only [typedCols, List.mem_cons, List.not_mem_nil, or_false] at hx
  push_neg at hx
  obtain ⟨n1, n2, n3, n4, n5, n6, n7, n8, n9⟩ := hx
  rw [e8 x n9, e7 x n8, e6 x n7, e5 x n6, e4 x n5, e3 x n4, e1 x n3, e0 x n2, e x n1]

/-- The columns written by the ratings block. -/
def ratingCols : List String := ["rating_raw", "rating_scale", "rating_1_5"]

theorem mem_rows_etlRatings {t : Table} {r2 : Row} (h : r2 ∈ (etlRatings t).rows) :
    ∃ r ∈ t.rows, ∀ x, ¬ x ∈ ratingCols → r2.get x = r.get x := by
  unfold etlRatings at h
  split at h
  · obtain ⟨r1, h1, e1⟩ := get_setCol_all h
    obtain ⟨r0, h0, e0⟩ := get_setCol_all h1
    obtain ⟨r, hr, e⟩ := get_mapCol_all h0
    refine ⟨r, hr, fun x hx => ?_⟩
    simp only [ratingCols, List.mem_cons, List.not_mem_nil, or_false] at hx
    push_neg at hx
    obtain ⟨n1, n2, n3⟩ := hx
    rw [e1 x n3, e0 x n2, e x n1]
  · obtain ⟨r1, h1, e1⟩ := get_setCol_all h
    obtain ⟨r0, h0, e0⟩ := get_setCol_all h1
    obtain ⟨r, hr, e⟩ := get_setCol_all h0
    refine ⟨r, hr, fun x hx => ?_⟩
    simp only [ratingCols, List.mem_cons, List.not_mem_nil, or_false] at hx
    push_neg at hx
    obtain ⟨n1, n2, n3⟩ := hx
    rw [e1 x n3, e0 x n2, e x n1]

theorem mem_rows_etlTip {t : Table} {r2 : Row} (h : r2 ∈ (etlTip t).rows) :
    ∃ r ∈ t.rows, ∀ x, x ≠ "tip_percentage" → r2.get x = r.get x := by
  unfold etlTip at h
  split at h
  · unfold compute_tip_pct at h
    obtain ⟨r1, h1, e1⟩ := get_setCol_all h
    split at h1
    · exact ⟨r1, h1, fun x hx => e1 x hx⟩
    · obtain ⟨r, hr, e⟩ := get_setCol_all h1
      exact ⟨r, hr, fun x hx => (e1 x hx).trans (e x hx)⟩
  · exact ⟨r2, h, fun x _ => rfl⟩

theorem mem_rows_etlCatOne {t : Table} {rawCol normCol : String}
    {m : List (String × String)} {r2 : Row} (h : r2 ∈ (etlCatOne t rawCol normCol m).rows) :
    ∃ r ∈ t.rows, ∀ x, x ≠ rawCol → x ≠ normCol → r2.get x = r.get x := by
  unfold etlCatOne at h
  split at h
  · obtain ⟨r1, h1, e1⟩ := get_setCol_all h
    obtain ⟨r, hr, e⟩ := get_mapCol_all h1
    exact ⟨r, hr, fun x hx1 hx2 => (e1 x hx2).trans (e x hx1)⟩
  · exact ⟨r2, h, fun x _ _ => rfl⟩

/-- The columns written by the categorical blocks. -/
def catCols : List String :=
  ["gender", "gender_norm", "ethnicity", "ethnicity_norm", "age_range", "age_group"]

theorem mem_rows_etlCats {t : Table} {r2 : Row} (h : r2 ∈ (etlCats t).rows) :
    ∃ r ∈ t.rows, ∀ x, ¬ x ∈ catCols → r2.get x = r.get x := by
  unfold etlCats at h
  obtain ⟨r1, h1, e1⟩ := mem_rows_etlCatOne h
  obtain ⟨r0, h0, e0⟩ := mem_rows_etlCatOne h1
  obtain ⟨r, hr, e⟩ := mem_rows_etlCatOne h0
  refine ⟨r, hr, fun x hx => ?_⟩
  simp only [catCols, List.mem_cons, List.not_mem_nil, or_false] at hx
  push_neg at hx
  obtain ⟨n1, n2, n3, n4, n5, n6⟩ := hx
  rw [e1 x n5 n6, e0 x n3 n4, e x n1 n2]

theorem mem_rows_ensureFold {l : List String} {t : Table} {r2 : Row}
    (h : r2 ∈ (ensureFold l t).rows) :
    ∃ r ∈ t.rows, ∀ x,
      r2.get x = r.get x ∨ (x ∈ l ∧ ¬ x ∈ t.cols ∧ r2.get x = .missing) := by
  induction l generalizing t with
  | nil => exact ⟨r2, h, fun x => Or.inl rfl⟩
  | cons c cs ih =>
    have h2 : r2 ∈ (ensureFold cs
        (if c ∈ t.cols then t else t.setCol c fun _ => .missing)).rows := h
    by_cases hc : c ∈ t.cols
    · rw [if_pos hc] at h2
      obtain ⟨r, hr, hget⟩ := ih h2
      refine ⟨r, hr, fun x => (hget x).imp id ?_⟩
      rintro ⟨h1, h2x, h3⟩
      exact ⟨List.mem_cons_of_mem _ h1, h2x, h3⟩
    · rw [if_neg hc] at h2
      obtain ⟨r1, hr1, hget⟩ := ih h2
      obtain ⟨r, hr, rfl⟩ := mem_rows_setCol hr1
      refine ⟨r, hr, fun x => ?_⟩
      rcases hget x with heq | ⟨hxl, hxcols, hmiss⟩
      · by_cases hxc : x = c
        · subst hxc
          right
          exact ⟨List.mem_cons_self _ _, hc, by rw [heq, Row.get_set_self]⟩
        · left
          rw [heq, Row.get_set_ne _ _ _ _ hxc]
      · right
        refine ⟨List.mem_cons_of_mem _ hxl, ?_, hmiss⟩
        intro hxt
        exact hxcols ((mem_cols_setCol t c x _).mpr (Or.inl hxt))

theorem mem_rows_etlEnsure {t : Table} {r2 : Row} (h : r2 ∈ (etlEnsure t).rows) :
    ∃ r ∈ t.rows, ∀ x,
      r2.get x = r.get x ∨ (x ∈ STANDARD_COLS ∧ ¬ x ∈ t.cols ∧ r2.get x = .missing) :=
  mem_rows_ensureFold h

/-- The columns written by the outlier block. -/
def outlierCols : List String :=
  ["tip_percentage", "log_total_spent", "review_length", "review_text_trunc"]

theorem mem_rows_capTip {t : Table} {cap : ℚ} {r2 : Row}
    (h : r2 ∈ (cap_tip_percentage t cap).rows) :
    ∃ r ∈ t.rows, ∀ x, x ≠ "tip_percentage" → r2.get x = r.get x := by
  unfold cap_tip_percentage at h
  split at h
  · exact get_mapCol_all h
  · exact ⟨r2, h, fun x _ => rfl⟩

theorem mem_rows_addLog {t : Table} {r2 : Row} (h : r2 ∈ (add_log_total_spent t).rows) :
    ∃ r ∈ t.rows, ∀ x, x ≠ "log_total_spent" → r2.get x = r.get x := by
  unfold add_log_total_spent at h
  split at h
  · exact get_setCol_all h
  · exact ⟨r2, h, fun x _ => rfl⟩

theorem mem_rows_capRevLen {t : Table} {n : ℕ} {r2 : Row}
    (h : r2 ∈ (cap_review_length t n).rows) :
    ∃ r ∈ t.rows, ∀ x, x ≠ "review_length" → x ≠ "review_text_trunc" →
      r2.get x = r.get x := by
  unfold cap_review_length at h
  split at h
  · obtain ⟨r1, h1, e1⟩ := get_setCol_all h
    obtain ⟨r, hr, e⟩ := get_setCol_all h1
    exact ⟨r, hr, fun x hx1 hx2 => (e1 x hx2).trans (e x hx1)⟩
  · exact ⟨r2, h, fun x _ _ => rfl⟩

theorem mem_rows_etlOutlier {t : Table} {r2 : Row} (h : r2 ∈ (etlOutlier t).rows) :
    ∃ r ∈ t.rows, ∀ x, ¬ x ∈ outlierCols → r2.get x = r.get x := by
  unfold etlOutlier at h
  obtain ⟨r1, h1, e1⟩ := mem_rows_capRevLen h
  obtain ⟨r0, h0, e0⟩ := mem_rows_addLog h1
  obtain ⟨r, hr, e⟩ := mem_rows_capTip h0
  refine ⟨r, hr, fun x hx => ?_⟩
  simp only [outlierCols, List.mem_cons, List.not_mem_nil, or_false] at hx
  push_neg at hx
  obtain ⟨n1, n2, n3, n4⟩ := hx
  rw [e1 x n3 n4, e0 x n2, e x n1]

-- ----------------------------------------------------------------
-- Pipeline invariants
-- ----------------------------------------------------------------

theorem get_source_etlSource {name : String} {t : Table} {r2 : Row}
    (h : r2 ∈ (etlSource name t).rows) : r2.get "source_file" = .str name := by
  obtain ⟨r, hr, rfl⟩ := mem_rows_setCol h
  exact Row.get_set_self _ _ _

/-- Every standard column is present in the table reaching deduplication,
thanks to the ensure-all-standard-columns loop. -/
theorem standard_mem_preDedup_cols (rawCols : List String) (rawRows : List Row)
    (name : String) :
    ∀ c ∈ STANDARD_COLS, c ∈ (preDedup rawCols rawRows name).cols := by
  intro c hc
  exact (mem_cols_etlOutlier _ _).mpr
    (Or.inl ((mem_cols_etlEnsure _ _).mpr (Or.inr hc)))

/-- The source_file column of the table reaching deduplication holds the
file name in every row: it is set right after column selection and no later
step overwrites it. -/
theorem get_source_preDedup (rawCols : List String) (rawRows : List Row)
    (name : String) :
    ∀ r2 ∈ (preDedup rawCols rawRows name).rows, r2.get "source_file" = .str name := by
  intro r2 h
  obtain ⟨r5, h5, e5⟩ := mem_rows_etlOutlier h
  obtain ⟨r4, h4, e4⟩ := mem_rows_etlEnsure h5
  have hcols : "source_file" ∈
      (etlCats (etlTip (etlRatings (etlTyped
        (etlSource name (etlSelect rawCols rawRows)))))).cols := by
    refine (mem_cols_etlCats _ _).mpr (Or.inl ?_)
    refine (mem_cols_etlTip _ _).mpr (Or.inl ?_)
    refine (mem_cols_etlRatings _ _).mpr (Or.inl ?_)
    rw [cols_etlTyped]
    exact (mem_cols_etlSource _ _ _).mpr (Or.inr rfl)
  have e4s : r5.get "source_file" = r4.get "source_file" := by
    rcases e4 "source_file" with heq | ⟨_, habs, _⟩
    · exact heq
    · exact absurd hcols habs
  obtain ⟨r3, h3, e3⟩ := mem_rows_etlCats h4
  obtain ⟨rt, ht, et⟩ := mem_rows_etlTip h3
  obtain ⟨r1, h1, e1⟩ := mem_rows_etlRatings ht
  obtain ⟨r0, h0, e0⟩ := mem_rows_etlTyped h1
  rw [e5 "source_file" (by decide), e4s, e3 "source_file" (by decide),
    et "source_file" (by decide), e1 "source_file" (by decide),
    e0 "source_file" (by decide)]
  exact get_source_etlSource h0

/-- Membership in stage 1 output, abstract-table form. -/
theorem mem_rows_dropEmpty {t : Table} {r : Row} (hr : r ∈ t.rows)
    (h : allMissing t.cols r = false) : r ∈ (dropEmptyRows t).rows := by
  unfold dropEmptyRows
  exact List.mem_filter.mpr ⟨hr, by simp [h]⟩

/-- One present cell among the listed columns falsifies `allMissing`. -/
theorem allMissing_eq_false {cols : List String} {r : Row} {c : String}
    (hc : c ∈ cols) (hv : r.get c ≠ Value.missing) : allMissing cols r = false := by
  cases h2 : allMissing cols r
  · rfl
  · have := List.all_eq_true.mp h2 c hc
    rw [decide_eq_true_eq] at this
    exact absurd this hv

-- ----------------------------------------------------------------
-- Resolved-column bookkeeping for claim C1
-- ----------------------------------------------------------------

/-- Every key produced by `build_colmap` is a unified field name of the
synonym table. -/
theorem colmap_fst_mem (rawCols : List String) (syn : List (String × List String)) :
    ∀ p ∈ build_colmap rawCols syn, p.1 ∈ syn.map Prod.fst := by
  intro p hp
  unfold build_colmap at hp
  obtain ⟨q, hq, hmap⟩ := List.mem_filterMap.mp hp
  obtain ⟨rawc, _, hpe⟩ := Option.map_eq_some'.mp hmap
  rw [← hpe]
  exact List.mem_map.mpr ⟨q, hq, rfl⟩

/-- The unified field names resolved from a raw header. -/
def mappedKeys (rawCols : List String) : List String :=
  (build_colmap (rawCols.map normalize_colname) SYNONYMS).map Prod.fst

/-- Derived-column names are never synonym keys, hence never selected
columns. -/
theorem derived_not_mappedKeys (rawCols : List String) (x : String)
    (hx : x = "gender_norm" ∨ x = "ethnicity_norm" ∨ x = "age_group"
      ∨ x = "log_total_spent" ∨ x = "review_length" ∨ x = "review_text_trunc"
      ∨ x = "source_file" ∨ x = "rating_scale" ∨ x = "rating_1_5") :
    ¬ x ∈ mappedKeys rawCols := by
  intro h
  obtain ⟨p, hp, hfst⟩ := List.mem_map.mp h
  have hmem := colmap_fst_mem _ _ p hp
  rw [hfst] at hmem
  rcases hx with rfl | rfl | rfl | rfl | rfl | rfl | rfl | rfl | rfl <;>
    exact absurd hmem (by decide)

/-- Membership in the columns of the table just before the categorical
blocks, for names that are not among the columns those earlier steps
write. -/
theorem mem_E_iff (rawCols : List String) (rawRows : List Row) (name : String)
    (x : String) (h1 : x ≠ "tip_percentage") (h2 : ¬ x ∈ ratingCols)
    (h3 : x ≠ "source_file") :
    x ∈ (etlTip (etlRatings (etlTyped (etlSource name
        (etlSelect rawCols rawRows))))).cols ↔ x ∈ mappedKeys rawCols := by
  rw [mem_cols_etlTip, mem_cols_etlRatings, cols_etlTyped, mem_cols_etlSource,
    show (etlSelect rawCols rawRows).cols = mappedKeys rawCols from rfl]
  simp only [ratingCols, List.mem_cons, List.not_mem_nil, or_false] at h2
  push_neg at h2
  obtain ⟨n1, n2, n3⟩ := h2
  constructor
  · rintro (((h | rfl) | rfl | rfl | rfl) | ⟨rfl, _⟩)
    · exact h
    · exact absurd rfl h3
    · exact absurd rfl n1
    · exact absurd rfl n2
    · exact absurd rfl n3
    · exact absurd rfl h1
  · intro h
    exact Or.inl (Or.inl (Or.inl h))

/-- Membership of the three derived categorical columns in the table
reaching deduplication is equivalent to their raw demographic column having
been resolved by the synonym mapping. -/
theorem derived_mem_preDedup_cols (rawCols : List String) (rawRows : List Row)
    (name : String) :
    ("gender_norm" ∈ (preDedup rawCols rawRows name).cols ↔ "gender" ∈ mappedKeys rawCols)
    ∧ ("ethnicity_norm" ∈ (preDedup rawCols rawRows name).cols
        ↔ "ethnicity" ∈ mappedKeys rawCols)
    ∧ ("age_group" ∈ (preDedup rawCols rawRows name).cols
        ↔ "age_range" ∈ mappedKeys rawCols) := by
  have hgn := derived_not_mappedKeys rawCols "gender_norm" (by tauto)
  have hen := derived_not_mappedKeys rawCols "ethnicity_norm" (by tauto)
  have hag := derived_not_mappedKeys rawCols "age_group" (by tauto)
  unfold preDedup
  refine ⟨?_, ?_, ?_⟩
  · rw [mem_cols_etlOutlier, mem_cols_etlEnsure, mem_cols_etlCats]
    constructor
    · rintro (((hE | ⟨_, hg⟩ | ⟨habs, _⟩ | ⟨habs, _⟩) | hstd) | ⟨habs, _⟩ | ⟨habs, _⟩)
      · exact absurd ((mem_E_iff rawCols rawRows name "gender_norm"
          (by decide) (by decide) (by decide)).mp hE) hgn
      · exact (mem_E_iff rawCols rawRows name "gender"
          (by decide) (by decide) (by decide)).mp hg
      · exact absurd habs (by decide)
      · exact absurd habs (by decide)
      · exact absurd hstd (by decide)
      · exact absurd habs (by decide)
      · rcases habs with habs | habs <;> exact absurd habs (by decide)
    · intro h
      exact Or.inl (Or.inl (Or.inr (Or.inl ⟨rfl, (mem_E_iff rawCols rawRows name
        "gender" (by decide) (by decide) (by decide)).mpr h⟩)))
  · rw [mem_cols_etlOutlier, mem_cols_etlEnsure, mem_cols_etlCats]
    constructor
    · rintro (((hE | ⟨habs, _⟩ | ⟨_, hg⟩ | ⟨habs, _⟩) | hstd) | ⟨habs, _⟩ | ⟨habs, _⟩)
      · exact absurd ((mem_E_iff rawCols rawRows name "ethnicity_norm"
          (by decide) (by decide) (by decide)).mp hE) hen
      · exact absurd habs (by decide)
      · exact (mem_E_iff rawCols rawRows name "ethnicity"
          (by decide) (by decide) (by decide)).mp hg
      · exact absurd habs (by decide)
      · exact absurd hstd (by decide)
      · exact absurd habs (by decide)
      · rcases habs with habs | habs <;> exact absurd habs (by decide)
    · intro h
      exact Or.inl (Or.inl (Or.inr (Or.inr (Or.inl ⟨rfl, (mem_E_iff rawCols rawRows
        name "ethnicity" (by decide) (by decide) (by decide)).mpr h⟩))))
  · rw [mem_cols_etlOutlier, mem_cols_etlEnsure, mem_cols_etlCats]
    constructor
    · rintro (((hE | ⟨habs, _⟩ | ⟨habs, _⟩ | ⟨_, hg⟩) | hstd) | ⟨habs, _⟩ | ⟨habs, _⟩)
      · exact absurd ((mem_E_iff rawCols rawRows name "age_group"
          (by decide) (by decide) (by decide)).mp hE) hag
      · exact absurd habs (by decide)
      · exact absurd habs (by decide)
      · exact (mem_E_iff rawCols rawRows name "age_range"
          (by decide) (by decide) (by decide)).mp hg
      · exact absurd hstd (by decide)
      · exact absurd habs (by decide)
      · rcases habs with habs | habs <;> exact absurd habs (by decide)
    · intro h
      exact Or.inl (Or.inl (Or.inr (Or.inr (Or.inr ⟨rfl, (mem_E_iff rawCols rawRows
        name "age_range" (by decide) (by decide) (by decide)).mpr h⟩))))

-- ----------------------------------------------------------------
-- Gender fallback invariant for claim C2
-- ----------------------------------------------------------------

/-- The identity-fallback relation between the gender cell and the
gender_norm cell of one row (etl.py line 332): a missing gender yields a
missing gender_norm, and a string gender yields its canonical-map image
with the raw value itself as fallback; the gender cell is never numeric in
pipeline output. -/
def genderFallback (r : Row) : Prop :=
  (r.get "gender" = Value.missing → r.get "gender_norm" = Value.missing) ∧
  (∀ s, r.get "gender" = Value.str s →
    r.get "gender_norm" = Value.str ((List.lookup s GENDER_MAP).getD s)) ∧
  (r.get "gender" = Value.missing ∨ ∃ s, r.get "gender" = Value.str s)

theorem get_mapRow_notmem (l : List (String × String)) (g : String × String → Value)
    (x : String) (hx : ¬ x ∈ l.map Prod.fst) :
    Row.get (l.map fun p => (p.1, g p)) x = .missing := by
  induction l with
  | nil => rfl
  | cons p ps ih =>
    have hx1 : x ≠ p.1 := fun he =>
      hx (List.mem_map.mpr ⟨p, List.mem_cons_self _ _, he.symm⟩)
    have hx2 : ¬ x ∈ ps.map Prod.fst := fun hm => by
      obtain ⟨q, hq, he⟩ := List.mem_map.mp hm
      exact hx (List.mem_map.mpr ⟨q, List.mem_cons_of_mem _ hq, he⟩)
    rw [List.map_cons,
      show Row.get ((p.1, g p) :: ps.map fun q => (q.1, g q)) x
        = Row.get (ps.map fun q => (q.1, g q)) x from by
      simp [Row.get, List.lookup, beq_false_of_ne hx1]]
    exact ih hx2

/-- An unresolved unified field reads as missing in every selected row. -/
theorem etlSelect_get_missing (rawCols : List String) (rawRows : List Row)
    (x : String) (hx : ¬ x ∈ mappedKeys rawCols) :
    ∀ r ∈ (etlSelect rawCols rawRows).rows, r.get x = .missing := by
  intro r hr
  unfold etlSelect at hr
  dsimp only at hr
  split at hr
  · cases hr
  · obtain ⟨r0, _, req⟩ := List.mem_map.mp hr
    rw [← req]
    exact get_mapRow_notmem _ _ x hx

/-- The gender block establishes the identity fallback. -/
theorem catOne_gender_Q (t : Table) (hg : "gender" ∈ t.cols) :
    ∀ r2 ∈ (etlCatOne t "gender" "gender_norm" GENDER_MAP).rows, genderFallback r2 := by
  intro r2 h
  unfold etlCatOne at h
  rw [if_pos hg] at h
  obtain ⟨r1, hr1, rfl⟩ := mem_rows_setCol h
  obtain ⟨r0, hr0, rfl⟩ := mem_rows_mapCol hr1
  have e1 : ((r0.set "gender" (toLowerV (coerce_strV (r0.get "gender")))).set
      "gender_norm" (mapFillV GENDER_MAP ((r0.set "gender"
        (toLowerV (coerce_strV (r0.get "gender")))).get "gender"))).get "gender"
      = toLowerV (coerce_strV (r0.get "gender")) := by
    rw [Row.get_set_ne _ _ _ _ (by decide), Row.get_set_self]
  have e2 : ((r0.set "gender" (toLowerV (coerce_strV (r0.get "gender")))).set
      "gender_norm" (mapFillV GENDER_MAP ((r0.set "gender"
        (toLowerV (coerce_strV (r0.get "gender")))).get "gender"))).get "gender_norm"
      = mapFillV GENDER_MAP (toLowerV (coerce_strV (r0.get "gender"))) := by
    rw [Row.get_set_self, Row.get_set_self]
  unfold genderFallback
  rw [e1, e2]
  cases hv : r0.get "gender" with
  | num q =>
    refine ⟨fun habs => Value.noConfusion
        (show Value.str (strLower (numToString q)) = Value.missing from habs),
      fun s hs => ?_, Or.inr ⟨strLower (numToString q), rfl⟩⟩
    have hs' : Value.str (strLower (numToString q)) = Value.str s := hs
    injection hs' with hh
    show Value.str ((List.lookup (strLower (numToString q)) GENDER_MAP).getD
      (strLower (numToString q))) = Value.str ((List.lookup s GENDER_MAP).getD s)
    rw [hh]
  | str s0 =>
    refine ⟨fun habs => Value.noConfusion
        (show Value.str (strLower (strTrim s0)) = Value.missing from habs),
      fun s hs => ?_, Or.inr ⟨strLower (strTrim s0), rfl⟩⟩
    have hs' : Value.str (strLower (strTrim s0)) = Value.str s := hs
    injection hs' with hh
    show Value.str ((List.lookup (strLower (strTrim s0)) GENDER_MAP).getD
      (strLower (strTrim s0))) = Value.str ((List.lookup s GENDER_MAP).getD s)
    rw [hh]
  | missing =>
    exact ⟨fun _ => rfl,
      fun s hs => Value.noConfusion (show Value.missing = Value.str s from hs),
      Or.inl rfl⟩

/-- The fallback survives the remaining two categorical blocks. -/
theorem etlCats_Q_of_mapped (t : Table) (hg : "gender" ∈ t.cols) :
    ∀ r2 ∈ (etlCats t).rows, genderFallback r2 := by
  intro r2 h
  unfold etlCats at h
  obtain ⟨r1, hr1, e1⟩ := mem_rows_etlCatOne h
  obtain ⟨r0, hr0, e0⟩ := mem_rows_etlCatOne hr1
  have hQ := catOne_gender_Q t hg r0 hr0
  have hgg : r2.get "gender" = r0.get "gender" := by
    rw [e1 _ (by decide) (by decide), e0 _ (by decide) (by decide)]
  have hgn : r2.get "gender_norm" = r0.get "gender_norm" := by
    rw [e1 _ (by decide) (by decide), e0 _ (by decide) (by decide)]
  unfold genderFallback at hQ ⊢
  rw [hgg, hgn]
  exact hQ

/-- With no gender column resolved, both gender cells read missing in every
row of the table entering the categorical blocks. -/
theorem E_gets_missing (rawCols : List String) (rawRows : List Row) (name : String)
    (hg : ¬ "gender" ∈ mappedKeys rawCols) :
    ∀ r ∈ (etlTip (etlRatings (etlTyped (etlSource name
        (etlSelect rawCols rawRows))))).rows,
      r.get "gender" = .missing ∧ r.get "gender_norm" = .missing := by
  intro r h
  obtain ⟨r3, h3, e3⟩ := mem_rows_etlTip h
  obtain ⟨r2, h2, e2⟩ := mem_rows_etlRatings h3
  obtain ⟨r1, h1, e1⟩ := mem_rows_etlTyped h2
  unfold etlSource at h1
  obtain ⟨r0, h0, e0⟩ := get_setCol_all h1
  constructor
  · rw [e3 _ (by decide), e2 _ (by decide), e1 _ (by decide), e0 _ (by decide)]
    exact etlSelect_get_missing rawCols rawRows "gender" hg r0 h0
  · rw [e3 _ (by decide), e2 _ (by decide), e1 _ (by decide), e0 _ (by decide)]
    exact etlSelect_get_missing rawCols rawRows "gender_norm"
      (derived_not_mappedKeys rawCols "gender_norm" (Or.inl rfl)) r0 h0

/-- With no gender column, the categorical blocks leave both gender cells
missing. -/
theorem etlCats_missing_of_unmapped (t : Table) (hgE : ¬ "gender" ∈ t.cols)
    (hmiss : ∀ r ∈ t.rows, r.get "gender" = .missing ∧ r.get "gender_norm" = .missing) :
    ∀ r2 ∈ (etlCats t).rows,
      r2.get "gender" = .missing ∧ r2.get "gender_norm" = .missing := by
  intro r2 h
  unfold etlCats at h
  rw [show etlCatOne t "gender" "gender_norm" GENDER_MAP = t from by
    unfold etlCatOne; rw [if_neg hgE]] at h
  obtain ⟨r1, hr1, e1⟩ := mem_rows_etlCatOne h
  obtain ⟨r0, hr0, e0⟩ := mem_rows_etlCatOne hr1
  constructor
  · rw [e1 _ (by decide) (by decide), e0 _ (by decide) (by decide)]
    exact (hmiss r0 hr0).1
  · rw [e1 _ (by decide) (by decide), e0 _ (by decide) (by decide)]
    exact (hmiss r0 hr0).2

set_option maxHeartbeats 1000000 in
/-- Every row of the pipeline output satisfies the identity fallback. -/
theorem load_gender_fallback (rawCols : List String) (rawRows : List Row)
    (name : String) :
    ∀ r ∈ (load_and_standardize rawCols rawRows name).rows, genderFallback r := by
  intro r2 h
  have hrows2 : ∀ t2 : Table, (finalSelect t2).rows = t2.rows.map fun r =>
      (expectedCols.filter fun c => c ∈ t2.cols).map fun c => (c, r.get c) :=
    fun t2 => rfl
  rw [show load_and_standardize rawCols rawRows name
      = finalSelect (deduplicate_reviews (preDedup rawCols rawRows name)) from rfl,
    hrows2] at h
  have hGavail : "gender" ∈ (expectedCols.filter
      fun c => c ∈ (deduplicate_reviews (preDedup rawCols rawRows name)).cols) := by
    refine List.mem_filter.mpr ⟨by decide, decide_eq_true ?_⟩
    rw [cols_deduplicate]
    exact standard_mem_preDedup_cols rawCols rawRows name "gender" (by decide)
  have hGNavail : "gender_norm" ∈ (expectedCols.filter
      fun c => c ∈ (deduplicate_reviews (preDedup rawCols rawRows name)).cols)
      ↔ "gender" ∈ mappedKeys rawCols := by
    rw [List.mem_filter, decide_eq_true_eq, cols_deduplicate]
    constructor
    · rintro ⟨_, hd⟩
      exact (derived_mem_preDedup_cols rawCols rawRows name).1.mp hd
    · intro hmk
      exact ⟨by decide, (derived_mem_preDedup_cols rawCols rawRows name).1.mpr hmk⟩
  generalize hAv : (expectedCols.filter
      fun c => c ∈ (deduplicate_reviews (preDedup rawCols rawRows name)).cols)
    = avail at hGavail hGNavail h
  obtain ⟨r3, h3, hre⟩ := List.mem_map.mp h
  have h3p : r3 ∈ (preDedup rawCols rawRows name).rows :=
    (rows_deduplicate_sublist _).subset h3
  have h3p2 : r3 ∈ (etlOutlier (etlEnsure (etlCats (etlTip (etlRatings (etlTyped
      (etlSource name (etlSelect rawCols rawRows)))))))).rows := h3p
  obtain ⟨r4, h4, e4⟩ := mem_rows_etlOutlier h3p2
  obtain ⟨r5, h5, e5⟩ := mem_rows_etlEnsure h4
  have hg2 : r2.get "gender"
      = if "gender" ∈ avail then r3.get "gender" else .missing := by
    rw [← hre]
    exact get_rebuilt _ _ _
  have hgn2 : r2.get "gender_norm"
      = if "gender_norm" ∈ avail then r3.get "gender_norm" else .missing := by
    rw [← hre]
    exact get_rebuilt _ _ _
  rw [if_pos hGavail] at hg2
  have e4g : r3.get "gender" = r4.get "gender" := e4 _ (by decide)
  have e4gn : r3.get "gender_norm" = r4.get "gender_norm" := e4 _ (by decide)
  by_cases hm : "gender" ∈ mappedKeys rawCols
  · have hgE : "gender" ∈ (etlTip (etlRatings (etlTyped (etlSource name
        (etlSelect rawCols rawRows))))).cols :=
      (mem_E_iff rawCols rawRows name "gender"
        (by decide) (by decide) (by decide)).mpr hm
    have hQ5 : genderFallback r5 := etlCats_Q_of_mapped _ hgE r5 h5
    have hgcats : "gender" ∈ (etlCats (etlTip (etlRatings (etlTyped (etlSource name
        (etlSelect rawCols rawRows)))))).cols :=
      (mem_cols_etlCats _ _).mpr (Or.inl hgE)
    have e5g : r4.get "gender" = r5.get "gender" := by
      rcases e5 "gender" with he | ⟨_, habs, _⟩
      · exact he
      · exact absurd hgcats habs
    have e5gn : r4.get "gender_norm" = r5.get "gender_norm" := by
      rcases e5 "gender_norm" with he | ⟨habs, _, _⟩
      · exact he
      · exact absurd habs (by decide)
    rw [if_pos (hGNavail.mpr hm)] at hgn2
    unfold genderFallback at hQ5 ⊢
    rw [hg2, hgn2, e4g, e4gn, e5g, e5gn]
    exact hQ5
  · have hgE : ¬ "gender" ∈ (etlTip (etlRatings (etlTyped (etlSource name
        (etlSelect rawCols rawRows))))).cols := fun hc =>
      hm ((mem_E_iff rawCols rawRows name "gender"
        (by decide) (by decide) (by decide)).mp hc)
    have h5m := etlCats_missing_of_unmapped _ hgE
      (E_gets_missing rawCols rawRows name hm) r5 h5
    have h4g : r4.get "gender" = .missing := by
      rcases e5 "gender" with he | ⟨_, _, hmiss⟩
      · rw [he]
        exact h5m.1
      · exact hmiss
    have h4gn : r4.get "gender_norm" = .missing := by
      rcases e5 "gender_norm" with he | ⟨habs, _, _⟩
      · rw [he]
        exact h5m.2
      · exact absurd habs (by decide)
    have hg2m : r2.get "gender" = .missing := by
      rw [hg2, e4g]
      exact h4g
    have hgn2m : r2.get "gender_norm" = .missing := by
      by_cases ha : "gender_norm" ∈ avail
      · rw [hgn2, if_pos ha, e4gn]
        exact h4gn
      · rw [hgn2, if_neg ha]
    refine ⟨fun _ => hgn2m, fun s hs => ?_, Or.inl hg2m⟩
    rw [hg2m] at hs
    exact Value.noConfusion hs

/-- If gender_norm is filled whenever gender is present, check 9 collects no
unmapped gender values. -/
theorem unmappedValues_gender_nil (t : Table)
    (h : ∀ r ∈ t.rows, r.get "gender" ≠ Value.missing →
      r.get "gender_norm" ≠ Value.missing) :
    unmappedValues t "gender_norm" "gender" = [] := by
  unfold unmappedValues
  have hfil : (t.rows.filter fun r =>
      r.get "gender_norm" = Value.missing ∧ r.get "gender" ≠ Value.missing) = [] := by
    refine List.filter_eq_nil_iff.mpr ?_
    intro r hr
    simp only [decide_eq_true_eq, not_and]
    intro h1 h2
    exact absurd h1 (h r hr h2)
  rw [hfil]
  rfl

-- ----------------------------------------------------------------
-- Claim C10
-- ----------------------------------------------------------------

-- ----------------------------------------------------------------
-- Claim C10
-- ----------------------------------------------------------------

theorem map_eq_map_forall {α β : Type} {f g : α → β} :
    ∀ {l : List α}, l.map f = l.map g → ∀ a ∈ l, f a = g a := by
  intro l
  induction l with
  | nil =>
    intro _ a ha
    cases ha
  | cons x xs ih =>
    intro h a ha
    rw [List.map_cons, List.map_cons] at h
    injection h with h1 h2
    rcases List.mem_cons.mp ha with rfl | ha2
    · exact h1
    · exact ih h2 a ha2

/-- The review-text predicate of claim C10. -/
def rtMiss (r : Row) : Bool := decide (r.get "review_text" = Value.missing)

/-- Stage 2 keeps exactly the first row with missing review_text (pandas
treats the NaN keys as equal). -/
theorem dedupStage2_filter_rtMiss (t : Table) (h : "review_text" ∈ t.cols) :
    (dedupStage2 t).rows.filter rtMiss = (t.rows.filter rtMiss).take 1 := by
  unfold dedupStage2
  rw [if_pos h]
  show (dedupByKeyAux (fun r => ["review_text"].map r.get) [] t.rows).filter rtMiss
    = (t.rows.filter rtMiss).take 1
  have hpred : ∀ r : Row,
      (fun r : Row => decide ((["review_text"].map r.get) = [Value.missing])) r
        = rtMiss r := by
    intro r
    show decide _ = decide _
    refine decide_eq_decide.mpr ?_
    simp
  rw [← List.filter_congr fun r _ => hpred r,
    dedupByKeyAux_filter_eq (fun r => ["review_text"].map r.get) [Value.missing]
      [] t.rows (by simp),
    List.filter_congr fun r _ => hpred r]

/-- Stage 3 does not remove the unique review-text-missing row: its
composite key contains the review_text component, so no earlier row can
share its key. -/
theorem dedupStage3_filter_rtMiss (t : Table) (h : "review_text" ∈ t.cols)
    (hcount : t.rows.countP rtMiss ≤ 1) :
    (dedupStage3 t).rows.filter rtMiss = t.rows.filter rtMiss := by
  have hrtk : "review_text" ∈ dedupKeyCols t := by
    unfold dedupKeyCols
    exact List.mem_filter.mpr ⟨by decide, decide_eq_true h⟩
  unfold dedupStage3
  rw [if_pos (List.ne_nil_of_mem hrtk)]
  show (dedupByKeyAux (fun r => (dedupKeyCols t).map r.get) [] t.rows).filter rtMiss
    = t.rows.filter rtMiss
  refine dedupByKeyAux_filter_of_unique _ rtMiss ?_ t.rows [] ?_ hcount
  · intro r r2 hkey
    have := map_eq_map_forall hkey "review_text" hrtk
    unfold rtMiss
    rw [this]
  · intro k hk
    cases hk

/-- Pointwise-equal predicates count the same. -/
theorem countP_congr_pointwise {α : Type} {p q : α → Bool} {l : List α}
    (h : ∀ a ∈ l, p a = q a) : l.countP p = l.countP q := by
  rw [List.countP_eq_length_filter, List.countP_eq_length_filter,
    List.filter_congr h]

/-- Composition of the three dedup stages on the review-text-missing
rows: at most one such row survives and it is the first one of the
empty-row-drop output. -/
theorem dedup_filter_rtMiss (t : Table) (h : "review_text" ∈ t.cols) :
    (deduplicate_reviews t).rows.filter rtMiss
      = ((dropEmptyRows t).rows.filter rtMiss).take 1 := by
  unfold deduplicate_reviews
  have h1 : "review_text" ∈ (dropEmptyRows t).cols := by
    rw [cols_dropEmptyRows]; exact h
  have h2 : "review_text" ∈ (dedupStage2 (dropEmptyRows t)).cols := by
    rw [cols_dedupStage2, cols_dropEmptyRows]; exact h
  have hcount2 : (dedupStage2 (dropEmptyRows t)).rows.countP rtMiss ≤ 1 := by
    rw [List.countP_eq_length_filter, dedupStage2_filter_rtMiss _ h1,
      List.length_take]
    omega
  rw [dedupStage3_filter_rtMiss _ h2 hcount2, dedupStage2_filter_rtMiss _ h1]

set_option maxHeartbeats 1000000 in
/-- C10 amended: for every table with a review_text column,
`deduplicate_reviews` leaves exactly the review-text-missing rows that
survive as the first such row of the empty-row-drop output (at most one);
consequently the output of `load_and_standardize` never contains two rows
that both lack review text.  (As stated, "the first such row in original
order" fails for a standalone table whose first review-text-missing row is
fully missing and dropped by stage 1 — see the counterexample; inside
`load_and_standardize` stage 1 drops nothing.) -/
theorem C10_review_text_dedup (t : Table) (h : "review_text" ∈ t.cols) :
    ((deduplicate_reviews t).rows.filter rtMiss
      = ((dropEmptyRows t).rows.filter rtMiss).take 1) ∧
    (∀ (rawCols : List String) (rawRows : List Row) (name : String),
      (load_and_standardize rawCols rawRows name).rows.countP rtMiss ≤ 1) := by
  refine ⟨dedup_filter_rtMiss t h, ?_⟩
  intro rawCols rawRows name
  have hrt : "review_text" ∈ (preDedup rawCols rawRows name).cols :=
    standard_mem_preDedup_cols rawCols rawRows name "review_text" (by decide)
  have havail : "review_text" ∈ expectedCols.filter
      fun c => c ∈ (deduplicate_reviews (preDedup rawCols rawRows name)).cols := by
    refine List.mem_filter.mpr ⟨by decide, decide_eq_true ?_⟩
    rw [cols_deduplicate]
    exact hrt
  have hrows : ∀ t2 : Table, (finalSelect t2).rows = t2.rows.map fun r =>
      (expectedCols.filter fun c => c ∈ t2.cols).map fun c => (c, r.get c) :=
    fun t2 => rfl
  rw [show load_and_standardize rawCols rawRows name
      = finalSelect (deduplicate_reviews (preDedup rawCols rawRows name)) from rfl,
    hrows]
  generalize hAv : (expectedCols.filter
      fun c => c ∈ (deduplicate_reviews (preDedup rawCols rawRows name)).cols)
    = avail at havail ⊢
  rw [List.countP_map]
  have hpt : ∀ r ∈ (deduplicate_reviews (preDedup rawCols rawRows name)).rows,
      (rtMiss ∘ fun r : Row => avail.map fun c => (c, r.get c)) r = rtMiss r := by
    intro r _
    show rtMiss (avail.map fun c => (c, r.get c)) = rtMiss r
    unfold rtMiss
    refine decide_eq_decide.mpr ?_
    rw [get_rebuilt _ _ _, if_pos havail]
  rw [countP_congr_pointwise hpt, List.countP_eq_length_filter,
    dedup_filter_rtMiss (preDedup rawCols rawRows name) hrt, List.length_take]
  omega

/-- C10 counterexample table: its first review-text-missing row is fully
missing. -/
def c10table : Table :=
  { cols := ["review_id", "review_text"]
    rows := [[("review_id", Value.missing), ("review_text", Value.missing)],
             [("review_id", Value.num 1), ("review_text", Value.missing)]] }

/-- C10 counterexample: on a standalone table whose first review-text-
missing row is fully empty, stage 1 drops that row, and the single
review-text-missing survivor of `deduplicate_reviews` is NOT the first such
row in original order, refuting the claim's parenthetical. -/
theorem C10_counterexample :
    "review_text" ∈ c10table.cols ∧
    (deduplicate_reviews c10table).rows
      = [[("review_id", Value.num 1), ("review_text", Value.missing)]] ∧
    c10table.rows.find? rtMiss
      = some [("review_id", Value.missing), ("review_text", Value.missing)] ∧
    ¬ ([(("review_id" : String), Value.num 1), ("review_text", Value.missing)] : Row)
      = [("review_id", Value.missing), ("review_text", Value.missing)] := by
  decide

theorem C10_review_text_dedup_witness :
    (deduplicate_reviews c10table).rows.filter rtMiss
      = ((dropEmptyRows c10table).rows.filter rtMiss).take 1 :=
  (C10_review_text_dedup c10table (by decide)).1

-- ----------------------------------------------------------------
-- Claim C1
-- ----------------------------------------------------------------

/-- C1 counterexample: a file whose only recognized column is review_id is
accepted, but the returned table has only the 17 standard columns — the
three derived categorical columns are absent because no gender, ethnicity
or age_range column was resolved.  The claim's "exactly the 17 standard
fields plus the three derived fields, regardless of which raw columns were
present" is therefore false. -/
theorem C1_counterexample :
    (load_and_standardize ["review_id"] [[("review_id", Value.num 1)]] "f.csv").cols
      = STANDARD_COLS ∧
    (load_and_standardize ["review_id"] [[("review_id", Value.num 1)]] "f.csv").cols
      ≠ STANDARD_COLS ++ ["gender_norm", "ethnicity_norm", "age_group"] := by
  decide

set_option maxHeartbeats 1000000 in
/-- C1 amended: for every accepted input, the output of
`load_and_standardize` has exactly the 17 standard fields in fixed order,
followed by those of gender_norm, ethnicity_norm, age_group whose raw
demographic column (gender, ethnicity, age_range) was resolved by the
synonym mapping, in that fixed relative order. -/
theorem C1_output_columns (rawCols : List String) (rawRows : List Row)
    (name : String) :
    (load_and_standardize rawCols rawRows name).cols
      = STANDARD_COLS
        ++ ((if "gender" ∈ mappedKeys rawCols then ["gender_norm"] else [])
          ++ (if "ethnicity" ∈ mappedKeys rawCols then ["ethnicity_norm"] else [])
          ++ (if "age_range" ∈ mappedKeys rawCols then ["age_group"] else [])) := by
  obtain ⟨hgn, hen, hag⟩ := derived_mem_preDedup_cols rawCols rawRows name
  have hstd := standard_mem_preDedup_cols rawCols rawRows name
  have hcols : (load_and_standardize rawCols rawRows name).cols
      = expectedCols.filter fun c => c ∈ (preDedup rawCols rawRows name).cols := by
    unfold load_and_standardize
    rw [show ∀ t : Table, (finalSelect t).cols
        = expectedCols.filter fun c => c ∈ t.cols from fun t => rfl]
    simp only [cols_deduplicate]
  rw [hcols]
  unfold expectedCols
  rw [List.filter_append]
  have h17 : List.filter (fun c => decide (c ∈ (preDedup rawCols rawRows name).cols))
      STANDARD_COLS = STANDARD_COLS :=
    List.filter_eq_self.mpr fun c hc => decide_eq_true (hstd c hc)
  have h3 : List.filter (fun c => decide (c ∈ (preDedup rawCols rawRows name).cols))
      ["gender_norm", "ethnicity_norm", "age_group"]
      = ((if "gender" ∈ mappedKeys rawCols then ["gender_norm"] else [])
        ++ (if "ethnicity" ∈ mappedKeys rawCols then ["ethnicity_norm"] else [])
        ++ (if "age_range" ∈ mappedKeys rawCols then ["age_group"] else [])) := by
    by_cases hg : "gender" ∈ mappedKeys rawCols <;>
      by_cases he : "ethnicity" ∈ mappedKeys rawCols <;>
        by_cases ha : "age_range" ∈ mappedKeys rawCols <;>
          simp [List.filter, hgn, hen, hag, hg, he, ha]
  rw [h17, h3]

-- ----------------------------------------------------------------
-- Claim C7
-- ----------------------------------------------------------------

set_option maxHeartbeats 2000000 in
/-- C7: inside `load_and_standardize`, the first deduplication stage
(`dropna(how="all")`) drops exactly the rows whose standard fields are all
missing: every such row is removed, and no row with at least one present
standard field is removed.  Because source_file (a standard field) is set
to the file name in every row before this stage, both sets are in fact
empty and the property holds. -/
theorem C7_dedup_stage1_exact (rawCols : List String) (rawRows : List Row)
    (name : String) :
    (∀ r ∈ (preDedup rawCols rawRows name).rows,
      (∀ c ∈ STANDARD_COLS, r.get c = Value.missing) →
        ¬ r ∈ (dropEmptyRows (preDedup rawCols rawRows name)).rows) ∧
    (∀ r ∈ (preDedup rawCols rawRows name).rows,
      (∃ c ∈ STANDARD_COLS, r.get c ≠ Value.missing) →
        r ∈ (dropEmptyRows (preDedup rawCols rawRows name)).rows) := by
  constructor
  · intro r hr hall _
    have hsf := get_source_preDedup rawCols rawRows name r hr
    have : r.get "source_file" = Value.missing := hall "source_file" (by decide)
    rw [hsf] at this
    cases this
  · intro r hr _
    have hsf := get_source_preDedup rawCols rawRows name r hr
    have hsfcols := standard_mem_preDedup_cols rawCols rawRows name "source_file" (by decide)
    exact mem_rows_dropEmpty hr (allMissing_eq_false hsfcols (by rw [hsf]; intro h2; cases h2))

/-- Concrete instantiation of `C7_dedup_stage1_exact`: the single row of a
one-column file survives stage 1. -/
def c7row : Row :=
  (preDedup ["review_id"] [[("review_id", Value.num 1)]] "f.csv").rows.headI

set_option maxHeartbeats 2000000 in
theorem C7_dedup_stage1_exact_witness :
    c7row ∈ (dropEmptyRows (preDedup ["review_id"] [[("review_id", Value.num 1)]]
      "f.csv")).rows :=
  (C7_dedup_stage1_exact ["review_id"] [[("review_id", Value.num 1)]] "f.csv").2
    c7row (by decide) (by decide)

-- ----------------------------------------------------------------
-- Claim C5
-- ----------------------------------------------------------------

set_option maxHeartbeats 2000000 in
/-- C5: rating-scale inference is 5 with no non-missing values, 10 when
5 < vmax ≤ 10, 100 when 10 < vmax ≤ 100, 5 otherwise; rating_1_5 is
rating_raw / scale * 5 with one scale per file.  Concretely, through the
whole pipeline: max 7 gives scale 10 and 7 ↦ 3.5, max 85 gives scale 100
and 85 ↦ 4.25, max 4 gives scale 5 and 4 ↦ 4.0. -/
theorem C5_rating_scale (vals : List Value) :
    ((numericMax vals = none → infer_rating_scale vals = 5) ∧
     (∀ v : ℚ, numericMax vals = some v →
       ((5 < v ∧ v ≤ 10) → infer_rating_scale vals = 10) ∧
       ((10 < v ∧ v ≤ 100) → infer_rating_scale vals = 100) ∧
       (¬ (5 < v ∧ v ≤ 10) → ¬ (10 < v ∧ v ≤ 100) → infer_rating_scale vals = 5))) ∧
    (∀ q scale : ℚ, rating15V (.num q) scale = .num (q / scale * 5)) ∧
    ((load_and_standardize ["rating", "review_text"]
        [[("rating", .num 7), ("review_text", .str "a")],
         [("rating", .num 3), ("review_text", .str "b")]] "f.csv").colValues "rating_scale"
       = [.num 10, .num 10] ∧
     (load_and_standardize ["rating", "review_text"]
        [[("rating", .num 7), ("review_text", .str "a")],
         [("rating", .num 3), ("review_text", .str "b")]] "f.csv").colValues "rating_1_5"
       = [.num (7 / 2), .num (3 / 2)]) ∧
    ((load_and_standardize ["rating", "review_text"]
        [[("rating", .num 85), ("review_text", .str "a")]] "f.csv").colValues "rating_scale"
       = [.num 100] ∧
     (load_and_standardize ["rating", "review_text"]
        [[("rating", .num 85), ("review_text", .str "a")]] "f.csv").colValues "rating_1_5"
       = [.num (17 / 4)]) ∧
    ((load_and_standardize ["rating", "review_text"]
        [[("rating", .num 4), ("review_text", .str "a")]] "f.csv").colValues "rating_scale"
       = [.num 5] ∧
     (load_and_standardize ["rating", "review_text"]
        [[("rating", .num 4), ("review_text", .str "a")]] "f.csv").colValues "rating_1_5"
       = [.num 4]) := by
  refine ⟨⟨?_, ?_⟩, fun q scale => rfl, by decide, by decide, by decide⟩
  · intro h
    unfold infer_rating_scale
    rw [h]
  · intro v hv
    unfold infer_rating_scale
    rw [hv]
    dsimp only
    refine ⟨fun hc => by rw [if_pos hc], fun hc => ?_, fun h1 h2 => ?_⟩
    · rw [if_neg (by rintro ⟨_, hle⟩; exact absurd (lt_of_lt_of_le hc.1 hle) (by norm_num)),
        if_pos hc]
    · rw [if_neg h1, if_neg h2]

theorem C5_rating_scale_witness :
    infer_rating_scale [Value.num 7] = 10 ∧ infer_rating_scale [] = 5 :=
  ⟨((C5_rating_scale [Value.num 7]).1.2 7 (by decide)).1 (by decide),
   (C5_rating_scale []).1.1 (by decide)⟩

-- ----------------------------------------------------------------
-- Claim C8
-- ----------------------------------------------------------------

/-- Error detector on the `Except` boundary. -/
def exceptIsError {ε α : Type} : Except ε α → Bool
  | .error _ => true
  | .ok _ => false

/-- C8 counterexample: two supported `.csv` inputs make
`load_and_standardize` raise even though the extension is supported, so
"raises iff the extension is unsupported" is false: (a) both pandas read
attempts fail (an empty file raises EmptyDataError on both) and the
unguarded comma retry propagates the error; (b) the read succeeds but two
header columns (ID and Id) normalize onto the one resolved alias id of
review_id, so the duplicate-label selection makes `pd.DataFrame` raise
ValueError. -/
theorem C8_counterexample :
    exceptIsError (load_and_standardize_io ".csv" (Except.error "EmptyDataError")
      (Except.error "EmptyDataError") "reviews.csv") = true
    ∧ exceptIsError (load_and_standardize_io ".csv"
        (Except.ok ⟨["ID", "Id"], [[("ID", Value.num 1), ("Id", Value.num 2)]]⟩)
        (Except.ok ⟨["ID", "Id"], [[("ID", Value.num 1), ("Id", Value.num 2)]]⟩)
        "reviews.csv") = true
    ∧ (".csv" = ".csv" ∨ ".csv" = ".txt") := by
  refine ⟨rfl, ?_, Or.inl rfl⟩
  decide

/-- C8 amended: `load_and_standardize` raises exactly when the extension is
unsupported, or both pandas read attempts fail (the unguarded comma retry
propagates), or the read succeeds but some resolved alias labels more than
one column of the normalized header, making the `pd.DataFrame` selection
constructor raise on a duplicate-label two-column selection; everything
after that point is total, and field-level parse failures coerce to
missing. -/
theorem C8_error_boundary (suffix : String) (a1 ac : Except String RawTable)
    (name : String) :
    (exceptIsError (load_and_standardize_io suffix a1 ac name) = true ↔
      (¬ (suffix = ".csv" ∨ suffix = ".txt")
        ∨ (exceptIsError a1 = true ∧ exceptIsError ac = true)
        ∨ (∃ raw, read_table_any suffix a1 ac = .ok raw
            ∧ dupSelected raw.cols = true))) ∧
    (∀ s, parseRat s = none → coerce_numericV (.str s) = .missing) ∧
    (∀ s, parseDate s = none → coerce_dateV (.str s) = .missing) ∧
    coerce_numericV .missing = .missing ∧ coerce_dateV .missing = .missing := by
  refine ⟨?_, fun s h => by simp only [coerce_numericV]; rw [h],
    fun s h => by simp only [coerce_dateV]; rw [h], rfl, rfl⟩
  unfold load_and_standardize_io read_table_any
  by_cases hsup : suffix = ".csv" ∨ suffix = ".txt"
  · rw [if_pos hsup]
    cases a1 with
    | error e1 =>
      cases ac with
      | error e2 => simp [exceptIsError, hsup]
      | ok t2 =>
        by_cases hd : dupSelected t2.cols = true
        · simp [exceptIsError, hsup, hd]
        · simp [exceptIsError, hsup, hd]
    | ok t1 =>
      by_cases hd : dupSelected t1.cols = true
      · simp [exceptIsError, hsup, hd]
      · simp [exceptIsError, hsup, hd]
  · rw [if_neg hsup]
    simp [exceptIsError, hsup]

theorem C8_error_boundary_witness :
    exceptIsError (load_and_standardize_io ".pdf" (Except.error "x")
      (Except.error "y") "f.pdf") = true :=
  (C8_error_boundary ".pdf" (Except.error "x") (Except.error "y") "f.pdf").1.mpr
    (Or.inl (by decide))

-- ----------------------------------------------------------------
-- Claim C9
-- ----------------------------------------------------------------

/-- C9 counterexample: a table with restaurant_name and customer_name but
no review_id still gets a per-restaurant breakdown, so "breakdown present
iff restaurant_name and review_id are both present" is false. -/
theorem C9_counterexample :
    (integrity_report
      { cols := ["restaurant_name", "customer_name"]
        rows := [[("restaurant_name", Value.str "A"),
                  ("customer_name", Value.str "x")]] } "raw").byRestaurant ≠ none
    ∧ ¬ "review_id" ∈ (["restaurant_name", "customer_name"] : List String) := by
  decide

/-- C9 amended: the per-restaurant breakdown is present exactly when
restaurant_name is a column and at least one of review_id, customer_name
is; within it, review counts and percentage shares appear exactly when
review_id is a column, distinct-customer counts exactly when customer_name
is. -/
theorem C9_breakdown_condition (t : Table) (stage : String) :
    ((integrity_report t stage).byRestaurant ≠ none ↔
      ("restaurant_name" ∈ t.cols ∧ ("review_id" ∈ t.cols ∨ "customer_name" ∈ t.cols))) ∧
    (∀ l, (integrity_report t stage).byRestaurant = some l →
      ∀ row ∈ l, (row.reviews ≠ none ↔ "review_id" ∈ t.cols)
        ∧ (row.reviewsPct ≠ none ↔ "review_id" ∈ t.cols)
        ∧ (row.uniqueCustomers ≠ none ↔ "customer_name" ∈ t.cols)) := by
  constructor
  · unfold integrity_report
    dsimp only
    split
    · rename_i hcond
      simp [hcond]
    · rename_i hcond
      simp [hcond]
  · intro l hl row hrow
    unfold integrity_report at hl
    dsimp only at hl
    split at hl
    · rename_i hcond
      cases hl
      unfold byRestaurantRows at hrow
      obtain ⟨rv, _, rfl⟩ := List.mem_map.mp hrow
      refine ⟨?_, ?_, ?_⟩ <;> dsimp only
      · split <;> rename_i hc <;> simp [hc]
      · split <;> rename_i hc <;> simp [hc]
      · split <;> rename_i hc <;> simp [hc]
    · exact absurd hl (by simp)

-- ----------------------------------------------------------------
-- Escalation lemmas for the two check shapes
-- ----------------------------------------------------------------

theorem failIf_sev_le (b : Bool) (s : Status) : s.sev ≤ (failIf b s).sev := by
  unfold failIf
  split
  · cases s <;> simp [Status.sev]
  · exact le_refl _

theorem failIf_fail (b : Bool) : failIf b .fail = .fail := by
  unfold failIf
  split <;> rfl

theorem failIf_eq_or (b : Bool) (s : Status) : failIf b s = .fail ∨ failIf b s = s := by
  unfold failIf
  split
  · exact Or.inl rfl
  · exact Or.inr rfl

theorem failIf_warn (b : Bool) (s : Status) :
    failIf b s = .warn → s = .pass ∨ s = .warn := by
  unfold failIf
  split
  · intro h; cases h
  · intro h; exact Or.inr h

theorem warnIf_sev_le (b : Bool) (s : Status) : s.sev ≤ (warnIf b s).sev := by
  unfold warnIf
  split
  · rename_i h
    rw [h.2]
    simp [Status.sev]
  · exact le_refl _

theorem warnIf_fail (b : Bool) : warnIf b .fail = .fail := by
  unfold warnIf
  split
  · rename_i h
    cases h.2
  · rfl

theorem warnIf_warn (b : Bool) (s : Status) :
    warnIf b s = .warn → s = .pass ∨ s = .warn := by
  unfold warnIf
  split
  · rename_i h
    exact fun _ => Or.inl h.2
  · intro h
    exact Or.inr h

/-- `validate_restaurant_info` has no warn tier: its three checks only
escalate pass to fail. -/
theorem restaurant_ne_warn (t : Table) : validate_restaurant_info t ≠ .warn := by
  have key : ∀ (b : Bool) (s : Status), s ≠ .warn → failIf b s ≠ .warn := by
    intro b s hs
    rcases failIf_eq_or b s with h | h <;> rw [h]
    · intro h2; cases h2
    · exact hs
  unfold validate_restaurant_info
  refine key _ _ (key _ _ (key _ _ ?_))
  intro h
  cases h

-- ----------------------------------------------------------------
-- Claim C3
-- ----------------------------------------------------------------

theorem combineStep_eq_max (c : Status) (e : Entry) :
    combineStep c e = statusMax c (entryStatus e) := by
  cases e with
  | review raw proc n =>
    show (if entryStatus (Entry.review raw proc n) = .fail then Status.fail
      else if entryStatus (Entry.review raw proc n) = .warn ∧ c = .pass then .warn
      else c) = statusMax c (entryStatus (Entry.review raw proc n))
    generalize entryStatus (Entry.review raw proc n) = s
    cases s <;> cases c <;> simp [statusMax, Status.sev]
  | restaurantInfo t n =>
    show (if entryStatus (Entry.restaurantInfo t n) = .fail then Status.fail else c)
      = statusMax c (entryStatus (Entry.restaurantInfo t n))
    have hnw : validate_restaurant_info t ≠ .warn := restaurant_ne_warn t
    generalize hs : entryStatus (Entry.restaurantInfo t n) = s
    have hs2 : validate_restaurant_info t = s := hs
    cases s
    · cases c <;> simp [statusMax, Status.sev]
    · exact absurd hs2 hnw
    · cases c <;> simp [statusMax, Status.sev]

theorem foldl_combine_eq_max (entries : List Entry) :
    ∀ a : Status,
      entries.foldl combineStep a = (entries.map entryStatus).foldl statusMax a := by
  induction entries with
  | nil => intro a; rfl
  | cons e es ih =>
    intro a
    rw [List.foldl_cons, List.map_cons, List.foldl_cons, combineStep_eq_max, ih]

/-- Concrete per-source entries with statuses pass, warn and fail. -/
def c3procPass : Table :=
  { cols := ["review_id", "rating_1_5", "review_text"]
    rows := [[("review_id", Value.num 1), ("rating_1_5", Value.num 5),
              ("review_text", Value.str "ok")]] }

def c3rawWarn : Table :=
  { cols := ["review_id", "customer_name"]
    rows := [[("review_id", Value.num 1), ("customer_name", Value.str "a")],
             [("review_id", Value.num 1), ("customer_name", Value.str "b")]] }

def c3procWarn : Table :=
  { cols := ["review_id", "rating_1_5", "review_text"]
    rows := [[("review_id", Value.num 1), ("rating_1_5", Value.num 5),
              ("review_text", Value.str "a")],
             [("review_id", Value.num 2), ("rating_1_5", Value.num 5),
              ("review_text", Value.str "b")]] }

def c3procFail : Table :=
  { cols := ["review_id", "rating_1_5"]
    rows := [] }

set_option maxHeartbeats 2000000 in
/-- C3: the combined report status of `validate_with_integrity` equals the
worst status among all per-source statuses (fold of the severity maximum,
fail dominating warn dominating pass); in particular three per-source
reports with statuses pass, warn, fail combine to fail. -/
theorem C3_combined_worst (entries : List Entry) :
    ((validate_with_integrity entries).status
      = (validate_with_integrity entries).sources.foldl statusMax Status.pass) ∧
    ((validate_with_integrity [Entry.review c3procPass c3procPass "p",
        Entry.review c3rawWarn c3procWarn "w",
        Entry.review c3procFail c3procFail "f"]).sources
      = [Status.pass, Status.warn, Status.fail]) ∧
    ((validate_with_integrity [Entry.review c3procPass c3procPass "p",
        Entry.review c3rawWarn c3procWarn "w",
        Entry.review c3procFail c3procFail "f"]).status = Status.fail) := by
  refine ⟨?_, by decide, by decide⟩
  show entries.foldl combineStep Status.pass
    = (entries.map entryStatus).foldl statusMax Status.pass
  exact foldl_combine_eq_max entries Status.pass

-- ----------------------------------------------------------------
-- Claim C4
-- ----------------------------------------------------------------

set_option maxHeartbeats 1000000 in
/-- C4: within one per-source report, the status only escalates along
pass, warn, fail: the final status is the fold of the check updates from
pass; every check update is severity-monotone; fail is terminal under
every check; a check yields warn only from pass (or when warn already
stood); the conflicting-ids update of `validate_with_integrity` has the
same three properties; and every status is one of pass, warn, fail. -/
theorem C4_status_escalation (t : Table) (src : String) (rc : Option ℕ) (raw : Table) :
    ((validate_processed_data t src rc).status
      = (vpdChecks t rc).foldl (fun s u => u s) Status.pass) ∧
    (∀ u ∈ vpdChecks t rc, ∀ s : Status,
      (s.sev ≤ (u s).sev) ∧
      (u Status.fail = Status.fail) ∧
      (u s = Status.warn → s = Status.pass ∨ s = Status.warn)) ∧
    (∀ s : Status,
      (s.sev ≤ (conflictUpdate raw s).sev) ∧
      (conflictUpdate raw Status.fail = Status.fail) ∧
      (conflictUpdate raw s = Status.warn → s = Status.pass ∨ s = Status.warn)) ∧
    (∀ s : Status, s = Status.pass ∨ s = Status.warn ∨ s = Status.fail) := by
  refine ⟨rfl, ?_, ?_, ?_⟩
  · intro u hu
    simp only [vpdChecks, List.mem_cons, List.not_mem_nil, or_false] at hu
    rcases hu with rfl | rfl | rfl | rfl | rfl | rfl | rfl | rfl | rfl | rfl <;>
      first
        | exact fun s => ⟨failIf_sev_le _ _, failIf_fail _, failIf_warn _ _⟩
        | exact fun s => ⟨warnIf_sev_le _ _, warnIf_fail _, warnIf_warn _ _⟩
  · intro s
    exact ⟨warnIf_sev_le _ _, warnIf_fail _, warnIf_warn _ _⟩
  · intro s
    cases s
    · exact Or.inl rfl
    · exact Or.inr (Or.inl rfl)
    · exact Or.inr (Or.inr rfl)

theorem C4_status_escalation_witness :
    (Status.pass.sev ≤
      (failIf (decide (missingRequired c3procPass ≠ [])) Status.pass).sev)
    ∧ conflictUpdate c3rawWarn Status.fail = Status.fail :=
  ⟨((C4_status_escalation c3procPass "p" none c3rawWarn).2.1
      (failIf (decide (missingRequired c3procPass ≠ [])))
      (List.mem_cons_self _ _) Status.pass).1,
   ((C4_status_escalation c3procPass "p" none c3rawWarn).2.2.1 Status.fail).2.1⟩

-- ----------------------------------------------------------------
-- Claim C6
-- ----------------------------------------------------------------

/-- C6: row-wise tip processing.  First phase (`compute_tip_pct`): when the
observable tip_percentage (missing when the column is absent) is missing or
zero, total_spent is positive and tip_amount present, the new value is
tip_amount / total_spent * 100; otherwise it is left as-is.  Second phase
(`cap_tip_percentage` at 30): numeric values above 30 become exactly 30,
values at most 30 and missing values are unchanged. -/
theorem C6_tip_processing :
    (∀ t : Table, List.Forall₂ (fun r r2 =>
      (((if "tip_percentage" ∈ t.cols then r.get "tip_percentage" else Value.missing)
          = Value.missing ∨
        (if "tip_percentage" ∈ t.cols then r.get "tip_percentage" else Value.missing)
          = Value.num 0) →
        ∀ a s : ℚ, r.get "total_spent" = Value.num s → 0 < s →
          r.get "tip_amount" = Value.num a →
          r2.get "tip_percentage" = Value.num (a / s * 100)) ∧
      (¬ (((if "tip_percentage" ∈ t.cols then r.get "tip_percentage" else Value.missing)
            = Value.missing ∨
          (if "tip_percentage" ∈ t.cols then r.get "tip_percentage" else Value.missing)
            = Value.num 0)
          ∧ isPosV (r.get "total_spent") = true ∧ r.get "tip_amount" ≠ Value.missing) →
        r2.get "tip_percentage"
          = (if "tip_percentage" ∈ t.cols then r.get "tip_percentage" else Value.missing)))
      t.rows (compute_tip_pct t).rows) ∧
    (∀ t : Table, "tip_percentage" ∈ t.cols → List.Forall₂ (fun r r2 =>
      (∀ q : ℚ, r.get "tip_percentage" = Value.num q → 30 < q →
        r2.get "tip_percentage" = Value.num 30) ∧
      (∀ q : ℚ, r.get "tip_percentage" = Value.num q → q ≤ 30 →
        r2.get "tip_percentage" = Value.num q) ∧
      (r.get "tip_percentage" = Value.missing →
        r2.get "tip_percentage" = Value.missing))
      t.rows (cap_tip_percentage t 30).rows) := by
  constructor
  · intro t
    unfold compute_tip_pct
    by_cases hc : "tip_percentage" ∈ t.cols
    · rw [if_pos hc]
      show List.Forall₂ _ t.rows (t.rows.map fun r => r.set "tip_percentage" (computeTipRow r))
      rw [List.forall₂_map_right_iff]
      refine List.forall₂_same.mpr fun r hr => ?_
      rw [if_pos hc]
      constructor
      · intro hneeds a s hts hpos hta
        rw [Row.get_set_self]
        simp only [computeTipRow]
        rw [if_pos ⟨hneeds, by rw [hts]; simpa [isPosV] using hpos,
          by rw [hta]; intro h2; cases h2⟩]
        rw [hts, hta]
      · intro hmask
        rw [Row.get_set_self]
        simp only [computeTipRow]
        rw [if_neg hmask]
    · rw [if_neg hc]
      show List.Forall₂ _ t.rows
        ((t.rows.map fun r => r.set "tip_percentage" Value.missing).map
          fun r => r.set "tip_percentage" (computeTipRow r))
      rw [List.map_map, List.forall₂_map_right_iff]
      refine List.forall₂_same.mpr fun r hr => ?_
      rw [if_neg hc]
      have htp : (r.set "tip_percentage" Value.missing).get "tip_percentage"
          = Value.missing := Row.get_set_self _ _ _
      have hts : (r.set "tip_percentage" Value.missing).get "total_spent"
          = r.get "total_spent" := Row.get_set_ne _ _ _ _ (by decide)
      have hta : (r.set "tip_percentage" Value.missing).get "tip_amount"
          = r.get "tip_amount" := Row.get_set_ne _ _ _ _ (by decide)
      constructor
      · intro _ a s hts2 hpos hta2
        show ((r.set "tip_percentage" Value.missing).set "tip_percentage"
          (computeTipRow (r.set "tip_percentage" Value.missing))).get "tip_percentage" = _
        rw [Row.get_set_self]
        simp only [computeTipRow]
        rw [if_pos ⟨Or.inl htp, by rw [hts, hts2]; simpa [isPosV] using hpos,
          by rw [hta, hta2]; intro h2; cases h2⟩]
        rw [hts, hts2, hta, hta2]
      · intro hmask
        show ((r.set "tip_percentage" Value.missing).set "tip_percentage"
          (computeTipRow (r.set "tip_percentage" Value.missing))).get "tip_percentage" = _
        rw [Row.get_set_self]
        simp only [computeTipRow]
        rw [if_neg (by
          intro hand
          apply hmask
          obtain ⟨hneed2, hpos2, hta2⟩ := hand
          rw [hts] at hpos2
          rw [hta] at hta2
          exact ⟨Or.inl rfl, hpos2, hta2⟩), htp]
  · intro t hc
    unfold cap_tip_percentage
    rw [if_pos hc]
    show List.Forall₂ _ t.rows
      (t.rows.map fun r => r.set "tip_percentage" (capTipV 30 (r.get "tip_percentage")))
    rw [List.forall₂_map_right_iff]
    refine List.forall₂_same.mpr fun r hr => ?_
    refine ⟨fun q hq hgt => ?_, fun q hq hle => ?_, fun hm => ?_⟩
    · rw [Row.get_set_self, hq]
      simp only [capTipV]
      rw [if_pos hgt]
    · rw [Row.get_set_self, hq]
      simp only [capTipV]
      rw [if_neg (not_lt.mpr hle)]
    · rw [Row.get_set_self, hm]
      rfl

/-- Concrete instantiation table for `C6_tip_processing`. -/
def c6table : Table :=
  { cols := ["tip_percentage", "total_spent", "tip_amount"]
    rows := [[("tip_percentage", Value.missing), ("total_spent", Value.num 50),
              ("tip_amount", Value.num 10)]] }

theorem C6_tip_processing_witness :
    ((compute_tip_pct c6table).rows.headI).get "tip_percentage"
      = Value.num (10 / 50 * 100) := by
  have h := C6_tip_processing.1 c6table
  have hrows : (compute_tip_pct c6table).rows
      = [(compute_tip_pct c6table).rows.headI] := by decide
  rw [hrows] at h
  have h2 := List.forall₂_cons.mp (show List.Forall₂ _
    ([[("tip_percentage", Value.missing), ("total_spent", Value.num 50),
       ("tip_amount", Value.num 10)]] : List Row)
    [(compute_tip_pct c6table).rows.headI] from h)
  exact h2.1.1 (by decide) 10 50 (by decide) (by norm_num) (by decide)

theorem C9_breakdown_condition_witness :
    (integrity_report
      { cols := ["restaurant_name", "review_id"]
        rows := [[("restaurant_name", Value.str "A"),
                  ("review_id", Value.num 1)]] } "processed").byRestaurant ≠ none :=
  (C9_breakdown_condition
    { cols := ["restaurant_name", "review_id"]
      rows := [[("restaurant_name", Value.str "A"),
                ("review_id", Value.num 1)]] } "processed").1.mpr
    (by decide)

-- ----------------------------------------------------------------
-- Claim C2
-- ----------------------------------------------------------------

/-- Raw input exhibiting an unmapped gender value for claim C2. -/
def c2cols : List String :=
  ["review_id", "review_text", "gender", "age_range", "rating"]

/-- The single raw row of the C2 counterexample table. -/
def c2rows : List Row :=
  [[("review_id", Value.num 1), ("review_text", Value.str "good"),
    ("gender", Value.str "unspecified"), ("age_range", Value.str "26-35"),
    ("rating", Value.num 4)]]

set_option maxHeartbeats 2000000 in
/-- C2 counterexample: the value "unspecified" is not a key of the canonical
gender map and passes through into gender_norm unchanged (identity
fallback), exactly as the claim says — but `validate_processed_data` on the
pipeline output does NOT record it in unmapped_categories and the status
stays pass, because check 9 only collects rows where gender_norm is missing
while gender is present, and the identity fallback makes that emptiness
impossible on pipeline output.  The claim's warning/escalation half is
false. -/
theorem C2_counterexample :
    (load_and_standardize c2cols c2rows "downtown.csv").colValues "gender"
      = [Value.str "unspecified"] ∧
    (load_and_standardize c2cols c2rows "downtown.csv").colValues "gender_norm"
      = [Value.str "unspecified"] ∧
    ¬ "unspecified" ∈ GENDER_MAP.map Prod.fst ∧
    (validate_processed_data (load_and_standardize c2cols c2rows "downtown.csv")
      "downtown" none).unmappedCategories = [] ∧
    (validate_processed_data (load_and_standardize c2cols c2rows "downtown.csv")
      "downtown" none).status = Status.pass := by
  decide

/-- C2: the identity-fallback half of the claim holds: in every row of every
`load_and_standardize` output, a missing gender yields a missing
gender_norm, and a (string) gender value yields its canonical-map image with
the unmapped value itself passing through unchanged; consequently the check-9
unmapped-category collection of `validate_processed_data` is provably empty
on any table with that fallback property, so the claimed warning and
escalation can never occur on pipeline output. -/
theorem C2_gender_identity_fallback :
    (∀ rawCols rawRows name,
      ∀ r ∈ (load_and_standardize rawCols rawRows name).rows, genderFallback r) ∧
    (∀ t : Table,
      (∀ r ∈ t.rows, r.get "gender" ≠ Value.missing →
        r.get "gender_norm" ≠ Value.missing) →
      unmappedValues t "gender_norm" "gender" = []) :=
  ⟨load_gender_fallback, unmappedValues_gender_nil⟩

/-- Concrete instantiation table for the second half of
`C2_gender_identity_fallback`. -/
def c2wTable : Table :=
  { cols := ["gender", "gender_norm"]
    rows := [[("gender", Value.str "x"), ("gender_norm", Value.str "x")]] }

set_option maxHeartbeats 1000000 in
theorem C2_gender_identity_fallback_witness :
    genderFallback ((load_and_standardize ["gender"]
      [[("gender", Value.str "unspecified")]] "g.csv").rows.headI) ∧
    unmappedValues c2wTable "gender_norm" "gender" = [] := by
  constructor
  · exact C2_gender_identity_fallback.1 ["gender"]
      [[("gender", Value.str "unspecified")]] "g.csv" _ (by decide)
  · exact C2_gender_identity_fallback.2 c2wTable (by decide)

end TasteTrend
